import Mathlib

/-!
Verification of the braceless-C++ translator (`blcc.py`).

The translator is shallow-embedded: a source line is a `List Char`, the
`Compiler` state is the structure `Blcc.St`, and `Blcc.processLine` mirrors
`Compiler._process_line` branch by branch.  Stacks are stored with the top
at the head (the reverse of the Python lists, whose top is the last
element); the output list is likewise stored in reverse (most recent line
first) so that Python's `output.append` / `output.pop()` /
`output[-1]` become `cons` / `tail` / `head`.
-/

namespace Blcc

abbrev Line := List Char

/-- Convert a string literal to a `Line`. -/
def cs (s : String) : Line := s.toList

/-- Characters stripped by Python's no-argument `str.strip()`. -/
def isPySpace (c : Char) : Bool :=
  c = ' ' || c = '\t' || c = '\n' || c = '\r' || c = '\x0b' || c = '\x0c'

/-- Characters stripped by `lstrip(' \t')` / `rstrip(' \t')`. -/
def isSpTab (c : Char) : Bool := c = ' ' || c = '\t'

def lstripBy (p : Char → Bool) : Line → Line
  | [] => []
  | c :: cs => if p c then lstripBy p cs else c :: cs

def rstripBy (p : Char → Bool) (l : Line) : Line :=
  (lstripBy p l.reverse).reverse

/-- Python `s.lstrip()` (no argument). -/
def pyLstrip (l : Line) : Line := lstripBy isPySpace l

/-- Python `s.rstrip()` (no argument). -/
def pyRstrip (l : Line) : Line := rstripBy isPySpace l

/-- Python `s.strip()` (no argument). -/
def pyStrip (l : Line) : Line := pyLstrip (pyRstrip l)

/-- Python `s.lstrip(' \t')`. -/
def lstripSpTab (l : Line) : Line := lstripBy isSpTab l

/-- Python `s.rstrip('\n\r')`, applied to every input line by `Compiler.__init__`. -/
def rstripNl (l : Line) : Line := rstripBy (fun c => c = '\n' || c = '\r') l

/-- Python `pat in hay` (substring containment). -/
def containsSub (pat : Line) : Line → Bool
  | [] => pat.isEmpty
  | c :: rest => pat.isPrefixOf (c :: rest) || containsSub pat rest

/-- Python `hay.index(pat)` (first occurrence; total, `none` = would raise). -/
def indexSub? (pat : Line) : Line → Option Nat
  | [] => if pat.isEmpty then some 0 else none
  | c :: rest =>
    if pat.isPrefixOf (c :: rest) then some 0
    else (indexSub? pat rest).map (· + 1)

/-- Python `hay.rindex(pat)` (last occurrence; total, `none` = would raise). -/
def rindexSub? (pat : Line) : Line → Option Nat
  | [] => if pat.isEmpty then some 0 else none
  | c :: rest =>
    match (rindexSub? pat rest).map (· + 1) with
    | some j => some j
    | none => if pat.isPrefixOf (c :: rest) then some 0 else none

/-- `Compiler._get_indent`: visual indentation, tabs count as 4 columns. -/
def get_indent : Line → Nat
  | [] => 0
  | c :: rest =>
    if c = ' ' then 1 + get_indent rest
    else if c = '\t' then 4 + get_indent rest
    else 0

/-- `Compiler._get_content`: everything after the leading whitespace. -/
def get_content (l : Line) : Line := lstripSpTab l

/-- `Compiler._get_leading_ws`: the original leading whitespace of a line. -/
def get_leading_ws (l : Line) : Line :=
  l.take (l.length - (lstripSpTab l).length)

/-- `Compiler._update_block_comment_state`: scan a line for `/*` and `*/`. -/
def updBC (b : Bool) : Line → Bool
  | c1 :: c2 :: rest =>
    if !b && c1 = '/' && c2 = '*' then updBC true rest
    else if b && c1 = '*' && c2 = '/' then updBC false rest
    else updBC b (c2 :: rest)
  | _ => b

/-- Scanner of `Compiler._find_trailing_colon`: index of the last colon
outside strings, stopping at a `//` comment.  `prev` is the previous
character (a character following a backslash is skipped). -/
def ftcGo (prev : Option Char) (i : Nat) (inStr : Bool) (delim : Char)
    (lastColon : Option Nat) : Line → Option Nat
  | [] => lastColon
  | c :: rest =>
    if prev = some '\\' then ftcGo (some c) (i+1) inStr delim lastColon rest
    else if !inStr && c = '/' && rest.head? = some '/' then lastColon
    else if c = '"' && !inStr then ftcGo (some c) (i+1) true '"' lastColon rest
    else if c = '"' && inStr && delim = '"' then
      ftcGo (some c) (i+1) false delim lastColon rest
    else if c = '\'' && !inStr then ftcGo (some c) (i+1) true '\'' lastColon rest
    else if c = '\'' && inStr && delim = '\'' then
      ftcGo (some c) (i+1) false delim lastColon rest
    else if !inStr && c = ':' then ftcGo (some c) (i+1) inStr delim (some i) rest
    else ftcGo (some c) (i+1) inStr delim lastColon rest

/-- `Compiler._find_trailing_colon`: split `content` at a trailing colon
(outside strings/comments); the part before the colon is right-stripped. -/
def find_trailing_colon (content : Line) : Option (Line × Line) :=
  if content.isEmpty then none
  else
    match ftcGo none 0 false ' ' none content with
    | none => none
    | some lc =>
      let after := content.drop (lc + 1)
      let afterStripped := pyStrip after
      if afterStripped.isEmpty || (cs "//").isPrefixOf afterStripped then
        some (pyRstrip (content.take lc), after)
      else none

/-- Scanner of `Compiler._find_line_comment`. -/
def flcGo (prev : Option Char) (i : Nat) (inStr : Bool) : Line → Option Nat
  | [] => none
  | c :: rest =>
    if prev = some '\\' then flcGo (some c) (i+1) inStr rest
    else
      let inStr' := if c = '"' then !inStr else inStr
      if !inStr' && c = '/' && rest.head? = some '/' then some i
      else flcGo (some c) (i+1) inStr' rest

/-- `Compiler._find_line_comment`: position of a `//` comment start. -/
def find_line_comment (text : Line) : Option Nat := flcGo none 0 false text

/-- Scanner of `Compiler._count_unmatched_parens`. -/
def cupGo (prev : Option Char) (inStr : Bool) (delim : Char)
    (pd bd : Int) : Line → Int
  | [] => max 0 (pd + bd)
  | c :: rest =>
    if prev = some '\\' then cupGo (some c) inStr delim pd bd rest
    else if c = '"' && !inStr then cupGo (some c) true '"' pd bd rest
    else if c = '"' && inStr && delim = '"' then cupGo (some c) false delim pd bd rest
    else if c = '\'' && !inStr then cupGo (some c) true '\'' pd bd rest
    else if c = '\'' && inStr && delim = '\'' then cupGo (some c) false delim pd bd rest
    else if !inStr then
      if c = '(' then cupGo (some c) inStr delim (pd + 1) bd rest
      else if c = ')' then cupGo (some c) inStr delim (pd - 1) bd rest
      else if c = '[' then cupGo (some c) inStr delim pd (bd + 1) rest
      else if c = ']' then cupGo (some c) inStr delim pd (bd - 1) rest
      else cupGo (some c) inStr delim pd bd rest
    else cupGo (some c) inStr delim pd bd rest

/-- `Compiler._count_unmatched_parens`. -/
def count_unmatched_parens (text : Line) : Int := cupGo none false ' ' 0 0 text

/-- The `BlockType` enumeration of `blcc.py`. -/
inductive BlockType where
  | NORMAL
  | CLASS
  | STRUCT
  | ENUM
  | UNION
  | SWITCH
  | LAMBDA
  | REGULAR_BRACE
deriving DecidableEq, Repr

/-- The `Compiler` state (also covering the `MappingCompiler` subclass:
`tracked = true` makes every output append record `source_line_context`,
modelling `TrackedOutputList.append`; `output.pop()` and `output[-1] = ...`
are inherited raw list operations and leave `source_lines` untouched).
`output`, `source_lines` and the three stacks are stored in reverse
(most recent element first). -/
structure St where
  lines : List Line
  output : List Line
  source_lines : List Int
  tracked : Bool
  source_line_context : Int
  current : Nat
  indent_stack : List Nat
  block_type_stack : List BlockType
  whitespace_stack : List Line
  in_block_comment : Bool
  continuation_indent : Option Nat
  pending_blank_lines : List Line
  paren_depth : Int
  control_keyword : Option Line
  control_condition_lines : List Line
  control_start_indent : Option Nat
deriving Repr

/-- `self.output.append(item)` (for `MappingCompiler`, the overridden
`TrackedOutputList.append` which also records the source line). -/
def St.appendOut (s : St) (l : Line) : St :=
  { s with output := l :: s.output,
           source_lines :=
             if s.tracked then s.source_line_context :: s.source_lines
             else s.source_lines }

/-- `self.output.extend(items)`. -/
def St.extendOut (s : St) (ls : List Line) : St := ls.foldl St.appendOut s

/-- `self.output.pop()` (raw `list.pop`: does not touch `source_lines`). -/
def St.popOut (s : St) : St := { s with output := s.output.tail }

/-- `self.output[-1]`. -/
def St.lastOut (s : St) : Line := s.output.headD []

/-- `self.output[-1] = l` (raw `list.__setitem__`). -/
def St.setLastOut (s : St) (l : Line) : St :=
  { s with output := l :: s.output.tail }

/-- `self.indent_stack[-1]`. -/
def St.topIndent (s : St) : Nat := s.indent_stack.headD 0

/-- `Compiler._flush_blank_lines`. -/
def St.flushBlanks (s : St) : St :=
  { s.extendOut s.pending_blank_lines with pending_blank_lines := [] }

/-- Push one frame on all three stacks (the translator always pushes the
three parallel stacks together). -/
def St.pushFrame (s : St) (i : Nat) (bt : BlockType) (ws : Line) : St :=
  { s with indent_stack := i :: s.indent_stack,
           block_type_stack := bt :: s.block_type_stack,
           whitespace_stack := ws :: s.whitespace_stack }

/-- `Compiler._peek_next_line`'s scan: first non-blank, non-`//` line. -/
def nextReal : List Line → Option Line
  | [] => none
  | l :: rest =>
    let c := pyLstrip l
    if !c.isEmpty && !((cs "//").isPrefixOf c) then some l else nextReal rest

/-- `Compiler._peek_next_line`. -/
def peek_next_line (s : St) : Option Line := nextReal (s.lines.drop (s.current + 1))

/-- Backward scan of `Compiler._is_do_while` over the emitted output
(our `output` is stored most-recent-first, so this walks it forward). -/
def is_do_while_go : List Line → Bool
  | [] => false
  | l :: rest =>
    let t := pyStrip l
    if (cs "do \x7b").isPrefixOf t then true
    else if t.getLast? = some '{' && !containsSub (cs "do") t then false
    else is_do_while_go rest

/-- `Compiler._is_do_while`. -/
def St.is_do_while (s : St) : Bool := is_do_while_go s.output

/-- `Compiler._is_while_clause_for_do`. -/
def is_while_clause_for_do (s : St) (content : Line) : Bool :=
  let stripped := pyStrip content
  if (cs "while ").isPrefixOf stripped || (cs "while(").isPrefixOf stripped then
    s.is_do_while
  else false

/-- `Compiler._should_keep_colon`. -/
def should_keep_colon (before_colon : Line) : Bool :=
  let stripped := pyStrip before_colon
  (cs "case ").isPrefixOf stripped ||
  stripped = cs "default" ||
  stripped = cs "public" || stripped = cs "private" || stripped = cs "protected"

/-- The control-keyword detection shared by `Compiler._process_line`
(lines 226–235) and `Compiler._wrap_condition_if_needed` (lines 881–893):
both run the identical loop over `['if', 'for', 'while', 'switch']`
followed by the `else if` override. -/
def detectKw (stripped : Line) : Option Line :=
  let base :=
    if (cs "if ").isPrefixOf stripped || (cs "if\t").isPrefixOf stripped then
      some (cs "if")
    else if (cs "for ").isPrefixOf stripped || (cs "for\t").isPrefixOf stripped then
      some (cs "for")
    else if (cs "while ").isPrefixOf stripped || (cs "while\t").isPrefixOf stripped then
      some (cs "while")
    else if (cs "switch ").isPrefixOf stripped || (cs "switch\t").isPrefixOf stripped then
      some (cs "switch")
    else none
  if (cs "else if ").isPrefixOf stripped || (cs "else if\t").isPrefixOf stripped then
    some (cs "else if")
  else base

/-- The paren scan of `Compiler._wrap_condition_if_needed`: `true` iff the
first-opened paren's matching close is the final character (in which case
the condition is already wrapped and the line is returned unchanged). -/
def wcScan (i : Nat) (depth : Int) (len : Nat) : Line → Bool
  | [] => false
  | c :: rest =>
    if c = '(' then wcScan (i+1) (depth+1) len rest
    else if c = ')' then
      if depth - 1 = 0 then decide (i = len - 1)
      else wcScan (i+1) (depth-1) len rest
    else wcScan (i+1) depth len rest

/-- `Compiler._wrap_condition_if_needed`. -/
def wrap_condition_if_needed (before_colon : Line) : Line :=
  let stripped := pyStrip before_colon
  match detectKw stripped with
  | none => before_colon
  | some kw =>
    -- `condition_start = len(keyword)`, overridden to 7 for `else if`
    -- (equal to `len('else if')`, so simply `kw.length`).
    let condition_part := pyLstrip (stripped.drop kw.length)
    if condition_part.head? = some '(' &&
       wcScan 0 0 condition_part.length condition_part then
      before_colon
    else
      let leading_ws :=
        before_colon.take (before_colon.length - (pyLstrip before_colon).length)
      if kw = cs "else if" then
        leading_ws ++ cs "else if (" ++ condition_part ++ [')']
      else
        leading_ws ++ kw ++ cs " (" ++ condition_part ++ [')']

/-- `Compiler._detect_block_type`. -/
def detect_block_type (before_colon : Line) : BlockType :=
  let stripped := pyStrip before_colon
  if (cs "enum ").isPrefixOf stripped || containsSub (cs " enum ") stripped then .ENUM
  else if (cs "class ").isPrefixOf stripped || containsSub (cs " class ") stripped then .CLASS
  else if (cs "struct ").isPrefixOf stripped || containsSub (cs " struct ") stripped then .STRUCT
  else if (cs "union ").isPrefixOf stripped || containsSub (cs " union ") stripped then .UNION
  else if (cs "switch ").isPrefixOf stripped then .SWITCH
  else if containsSub (cs "[]") stripped || containsSub (cs "[&]") stripped ||
          containsSub (cs "[=]") stripped ||
          (stripped.head? = some '[' && containsSub (cs "](") stripped) then .LAMBDA
  else .NORMAL

/-- The comment-stripped, right-stripped text used by both
`Compiler._needs_semicolon` and `Compiler._is_continuation`. -/
def meaningfulTail (content : Line) : Line :=
  let stripped0 := pyRstrip content
  match find_line_comment stripped0 with
  | some p => pyRstrip (stripped0.take p)
  | none => stripped0

/-- `Compiler._needs_semicolon`. -/
def needs_semicolon (s : St) (content : Line) : Bool :=
  let stripped := meaningfulTail content
  if stripped.isEmpty then false
  else
    let first_non_space := pyLstrip stripped
    if first_non_space.head? = some ',' then false
    else if first_non_space.head? = some '.' &&
            (match peek_next_line s with
             | some nl => (pyLstrip nl).head? = some '.'
             | none => false) then false
    else if (cs "),").isPrefixOf first_non_space then false
    else
      let last_char := stripped.getLast?.getD ' '
      if last_char = ';' then false
      else if last_char = '{' then false
      else if last_char = '}' then
        if containsSub (cs "= \x7b") stripped || containsSub (cs "=\x7b") stripped then
          true
        else if stripped.contains '[' && stripped.contains ']' &&
                stripped.contains '(' && stripped.contains '{' &&
                stripped.count '{' = stripped.count '}' &&
                (stripped.contains '=' || (cs "return").isPrefixOf (pyLstrip stripped)) then
          true
        else false
      else if (pyLstrip stripped).head? = some '#' then false
      else if (cs "++").isSuffixOf stripped || (cs "--").isSuffixOf stripped then true
      else if (cs "+-*/%&|^=<>,([").contains last_char then false
      else if last_char = ')' then
        match peek_next_line s with
        | none => true
        | some nl =>
          let next_content := pyLstrip nl
          if next_content.head?.elim false (fun c => c = ')' || c = ',' || c = '.') then
            let next_indent := get_indent nl
            let current_indent :=
              if s.current < s.lines.length then get_indent (s.lines.getD s.current [])
              else get_indent content
            if next_indent < current_indent && s.indent_stack.contains current_indent
            then true
            else false
          else true
      else true

/-- `Compiler._is_continuation`. -/
def is_continuation (s : St) (content : Line) : Bool :=
  let stripped := meaningfulTail content
  if stripped.isEmpty then false
  else if (cs "++").isSuffixOf stripped || (cs "--").isSuffixOf stripped then false
  else
    let last_char := stripped.getLast?.getD ' '
    if (cs "+-*/%&|^=<>,([\x7b").contains last_char then true
    else if last_char = '"' &&
            (match peek_next_line s with
             | some nl => (pyLstrip nl).head? = some '"'
             | none => false) then true
    else if count_unmatched_parens stripped > 0 then true
    else if last_char = ')' &&
            (match peek_next_line s with
             | some nl => (pyLstrip nl).head? = some ':'
             | none => false) then true
    else false

/-- `Compiler._output_with_semicolon`. -/
def output_with_semicolon (s : St) (line : Line)
    (is_cont : Bool := false) (force_semicolon : Bool := false) : St :=
  let content := get_content line
  let leading_ws := get_leading_ws line
  if (pyStrip content).isEmpty then s.appendOut line
  else if pyStrip content = cs "pass" then s
  else if s.block_type_stack.headD .NORMAL = .ENUM then s.appendOut line
  else if (!force_semicolon && !needs_semicolon s content) || is_cont then
    s.appendOut line
  else
    match find_line_comment content with
    | some p =>
      let before := content.take p
      let code_part := pyRstrip before
      let spaces := before.drop code_part.length
      let comment_part := content.drop p
      s.appendOut (leading_ws ++ code_part ++ [';'] ++ spaces ++ comment_part)
    | none =>
      let code_part := pyRstrip content
      let trailing := content.drop code_part.length
      s.appendOut (leading_ws ++ code_part ++ [';'] ++ trailing)

/-- `Compiler._output_closing_brace`. -/
def output_closing_brace (s : St) (bt : BlockType)
    (closing_ws : Line := []) (cur_content : Line := []) : St :=
  let needs0 := bt = .CLASS || bt = .STRUCT || bt = .ENUM || bt = .UNION || bt = .LAMBDA
  let needs :=
    if bt = .LAMBDA then
      let cur := pyLstrip cur_content
      if (cs "),").isPrefixOf cur || (cs ")").isPrefixOf cur then false
      else
        match peek_next_line s with
        | some nl =>
          let nc := pyLstrip nl
          if nc.head?.elim false (fun c => c = ')' || c = ',' || c = ';') then false
          else needs0
        | none => needs0
    else needs0
  s.appendOut (closing_ws ++ ['}'] ++ (if needs then [';'] else []))

/-- One iteration of the dedent loops: pop the indent stack, pop the
block-type and whitespace stacks when they have more than the base element
(with the `MappingCompiler` drain reading the base element instead of
`NORMAL` when `elseBase` is set), and emit the closing brace unless
`guardRB` is set and the popped frame was a `REGULAR_BRACE`.  The indent
pop is written via the auxiliary `popEmitRest` (which never touches
`indent_stack`) so that loop termination is by the indent stack's length. -/
def popEmitRest (s : St) (guardRB : Bool) (cur : Line) (elseBase : Bool) : St :=
  let bt :=
    if s.block_type_stack.length > 1 then s.block_type_stack.headD .NORMAL
    else if elseBase then s.block_type_stack.getLastD .NORMAL
    else .NORMAL
  let s2 :=
    if s.block_type_stack.length > 1 then
      { s with block_type_stack := s.block_type_stack.tail }
    else s
  let ws := if s.whitespace_stack.length > 1 then s.whitespace_stack.headD [] else []
  let s3 :=
    if s.whitespace_stack.length > 1 then
      { s2 with whitespace_stack := s.whitespace_stack.tail }
    else s2
  if guardRB && bt = .REGULAR_BRACE then s3
  else output_closing_brace s3 bt ws cur

def popEmitFrame (s : St) (guardRB : Bool) (cur : Line) (elseBase : Bool) : St :=
  { popEmitRest s guardRB cur elseBase with indent_stack := s.indent_stack.tail }

/-- The dedent loops (`while len(indent_stack) > 1 and indent_stack[-1] > indent`)
at lines 125–129 (`guardRB = false`, `cur = ""`) and 406–413
(`guardRB = true`, `cur = content`), with explicit fuel: every iteration
pops exactly one element off `indent_stack` and the loop stops once one
element is left, so fuel equal to the stack's length (supplied by
`dedentLoop`) makes this the Python `while` loop. -/
def dedentLoopF (indent : Nat) (guardRB : Bool) (cur : Line) : Nat → St → St
  | 0, s => s
  | fuel+1, s =>
    if s.indent_stack.length > 1 ∧ s.topIndent > indent then
      dedentLoopF indent guardRB cur fuel (popEmitFrame s guardRB cur false)
    else s

def dedentLoop (indent : Nat) (guardRB : Bool) (cur : Line) (s : St) : St :=
  dedentLoopF indent guardRB cur s.indent_stack.length s

/-- The access-specifier pop loop (lines 383–392): close inner blocks until
the top of the stack is a class or struct (fuel as in `dedentLoopF`). -/
def accessPopLoopF (cur : Line) : Nat → St → St
  | 0, s => s
  | fuel+1, s =>
    if s.indent_stack.length > 1 then
      if s.block_type_stack.headD .NORMAL = .CLASS ∨
         s.block_type_stack.headD .NORMAL = .STRUCT then s
      else accessPopLoopF cur fuel (popEmitFrame s true cur false)
    else s

def accessPopLoop (cur : Line) (s : St) : St :=
  accessPopLoopF cur s.indent_stack.length s

/-- The drain loop of `Compiler.compile` (lines 57–61), fuel as in
`dedentLoopF`. -/
def drainLoopF : Nat → St → St
  | 0, s => s
  | fuel+1, s =>
    if s.indent_stack.length > 1 then drainLoopF fuel (popEmitFrame s false [] false)
    else s

def drainLoop (s : St) : St := drainLoopF s.indent_stack.length s

/-- The drain loop of `MappingCompiler.compile` (lines 1238–1242), whose
only difference is reading `block_type_stack[0]` instead of `NORMAL` when
the stack is down to its base element. -/
def drainLoopMF : Nat → St → St
  | 0, s => s
  | fuel+1, s =>
    if s.indent_stack.length > 1 then drainLoopMF fuel (popEmitFrame s false [] true)
    else s

def drainLoopM (s : St) : St := drainLoopMF s.indent_stack.length s

/-- First whitespace-separated word (`s.split()[0]`, `[]` when none). -/
def firstWord (l : Line) : Line := (pyLstrip l).takeWhile (fun c => !isPySpace c)

/-- The peek loop at lines 105–122 (blank/comment dedent check): first
line whose content is non-empty and not a `//` comment. -/
def blankPeek : List Line → Option Line
  | [] => none
  | l :: rest =>
    let c := get_content l
    if !c.isEmpty && !((cs "//").isPrefixOf (pyLstrip c)) then some l
    else blankPeek rest

/-- The access-specifier lookahead loop at lines 605–612. -/
def accessPeek : List Line → Option Line
  | [] => none
  | l :: rest =>
    let c := get_content l
    if !c.isEmpty && !((cs "//").isPrefixOf c) then some l else accessPeek rest

/-- The backward search at lines 624–636 for the line that started a
continuation: walk previous lines (most recent first), skip blanks and
comments, stop at the first line with a strictly smaller indent. -/
def contStartSearch (indent : Nat) : List Line → Option Line
  | [] => none
  | l :: rest =>
    let c := get_content l
    if c.isEmpty || (cs "//").isPrefixOf (pyLstrip c) then contStartSearch indent rest
    else if get_indent l < indent then some l
    else contStartSearch indent rest

/-- The inner `j` loop at lines 343–348: some line of the slice has a `:`
outside a `//` comment prefix. -/
def hasColonLine : List Line → Bool
  | [] => false
  | l :: rest =>
    ((get_content l).contains ':' &&
     !((cs "//").isPrefixOf (pyLstrip (get_content l)))) ||
    hasColonLine rest

/-- One probe of the backward constructor-initializer search
(lines 327–349) at index `i`: `none` means keep scanning. -/
def ctorCheckAt (lines : List Line) (current indent i : Nat) : Option Bool :=
  let l := lines.getD i []
  let c := get_content l
  if c.isEmpty || (cs "//").isPrefixOf (pyLstrip c) then none
  else if get_indent l < indent then
    some (if c.contains ':' && c.contains '(' then true
          else if c.contains '(' && c.contains ')' then
            hasColonLine ((lines.drop i).take (current - i + 1))
          else false)
  else none

/-- The backward constructor-initializer search, scanning from index `i`
down to 0. -/
def ctorInitGo (lines : List Line) (current indent : Nat) : Nat → Bool
  | 0 => (ctorCheckAt lines current indent 0).getD false
  | i+1 =>
    match ctorCheckAt lines current indent (i+1) with
    | some b => b
    | none => ctorInitGo lines current indent i

/-- Lines 98–129: the dedent that a blank or comment line at lower indent
may trigger (guarded by the peek at the next real line). -/
def blankDedentPart (s : St) (indent : Nat) : St :=
  if indent < s.topIndent then
    let should_dedent :=
      match blankPeek (s.lines.drop (s.current + 1)) with
      | none => false
      | some pl =>
        let is_access :=
          match find_trailing_colon (get_content pl) with
          | some (b, _) =>
            pyStrip b = cs "public" || pyStrip b = cs "private" ||
            pyStrip b = cs "protected"
          | none => false
        get_indent pl ≤ indent && !is_access
    if should_dedent then dedentLoop indent false [] s else s
  else s

/-- Lines 131–166: buffer or emit the blank/comment line itself. -/
def blankBuffer (s : St) (line : Line) (indent : Nat) (content : Line) : St :=
  if content.isEmpty then
    let should_buffer :=
      match peek_next_line s with
      | some nl => decide (get_indent nl < s.topIndent ∧ indent = get_indent nl)
      | none => false
    if should_buffer then
      { s with pending_blank_lines := s.pending_blank_lines ++ [line] }
    else s.flushBlanks.appendOut line
  else
    let should_buffer :=
      match peek_next_line s with
      | some nl => decide (get_indent nl < s.topIndent)
      | none => false
    if should_buffer then
      { s with pending_blank_lines := s.pending_blank_lines ++ [line] }
    else s.flushBlanks.appendOut line

/-- Lines 96–166: blank or comment-only line. -/
def blankCommentBranch (s : St) (line : Line) (indent : Nat) (content : Line) : St :=
  blankBuffer (blankDedentPart s indent) line indent content

/-- Lines 198–211 of the multiline-condition completion: detect the block
type, peek the next line and push the new frame when its indent exceeds
the control keyword's start indent. -/
def controlPush (s : St) (bt : BlockType) (startIndent : Nat) (opener_ws : Line) : St :=
  match peek_next_line s with
  | some nl =>
    let nc := get_content nl
    if !nc.isEmpty && !((cs "//").isPrefixOf nc) && get_indent nl > startIndent then
      s.pushFrame (get_indent nl) bt opener_ws
    else s
  | none => s

/-- Lines 168–221: collecting a multiline control-structure condition. -/
def controlCollect (s : St) (line : Line) (content : Line) : St :=
  match find_trailing_colon content with
  | none => { s with control_condition_lines := s.control_condition_lines ++ [line] }
  | some (before, _after) =>
    let cut := (rindexSub? before line).getD 0 + before.length
    let condLines := s.control_condition_lines ++ [line.take cut]
    let kw := s.control_keyword.getD []
    let first := condLines.headD []
    let keyword_end := (indexSub? kw first).getD 0 + kw.length
    let wrapped_first :=
      first.take keyword_end ++ cs " (" ++ pyLstrip (first.drop keyword_end)
    let s1 := s.appendOut wrapped_first
    let s2 := s1.extendOut condLines.tail
    let s3 := s2.setLastOut (s2.lastOut ++ cs ") \x7b")
    let s4 := if !(pyStrip _after).isEmpty then s3.setLastOut (s3.lastOut ++ _after) else s3
    let s5 := controlPush s4 (detect_block_type kw) (s.control_start_indent.getD 0)
      (get_leading_ws (condLines.headD []))
    { s5 with control_keyword := none, control_condition_lines := [],
              control_start_indent := none }

/-- Lines 259–283: a parenthesis-free control line carrying a regular `{`. -/
def ctlBraceLine (s : St) (line : Line) (indent : Nat) (content : Line) : St :=
  let brace_pos := (indexSub? (cs "\x7b") content).getD 0
  let before_brace := pyRstrip (content.take brace_pos)
  let after_brace := content.drop brace_pos
  let wrapped := wrap_condition_if_needed before_brace
  let s1 := s.appendOut (get_leading_ws line ++ wrapped ++ [' '] ++ after_brace)
  match peek_next_line s1 with
  | some nl =>
    let nc := get_content nl
    if !nc.isEmpty && !((cs "//").isPrefixOf nc) && get_indent nl > indent then
      s1.pushFrame (get_indent nl) .REGULAR_BRACE []
    else s1
  | none => s1

/-- Lines 309–359: a line inside a multiline continuation. -/
def contBody (s : St) (line : Line) (indent : Nat) (content : Line) : St :=
  let open_count := (content.count '(') + (content.count '[')
  let close_count := (content.count ')') + (content.count ']')
  let pd := s.paren_depth + (open_count : Int) - (close_count : Int)
  let s := { s with paren_depth := pd }
  let is_last := !is_continuation s content && pd ≤ 0
  let stripped_content := pyRstrip content
  let force :=
    if is_last && (cs "\x7b\x7d").isSuffixOf stripped_content &&
       stripped_content.count '{' = stripped_content.count '}' then
      let is_ctor :=
        if s.current = 0 then false
        else ctorInitGo s.lines s.current indent (s.current - 1)
      !is_ctor
    else
      is_last && stripped_content.getLast? = some '}' &&
      !((cs "\x7b\x7d").isSuffixOf stripped_content)
  let s1 := output_with_semicolon s line (!is_last) force
  if is_last then { s1 with continuation_indent := none, paren_depth := 0 }
  else s1

/-- Lines 377–399: access specifier reached while dedenting inside a
class or struct. -/
def accessSpecBranch (s : St) (line : Line) (content : Line) : St :=
  let saved := s.pending_blank_lines
  let s1 := accessPopLoop content { s with pending_blank_lines := [] }
  (s1.extendOut saved).appendOut line

/-- Lines 436–468: a line ending in a regular opening brace. -/
def regularBraceBranch (s : St) (line : Line) (indent : Nat) (content : Line) : St :=
  let stripped_content := pyStrip content
  if ((cs "else ").isPrefixOf stripped_content ||
      (cs "catch ").isPrefixOf stripped_content) &&
     stripped_content.contains '{' &&
     !s.output.isEmpty && pyStrip s.lastOut = cs "\x7d" then
    let s1 := s.popOut.appendOut (get_leading_ws line ++ cs "\x7d " ++ stripped_content)
    match peek_next_line s1 with
    | some nl =>
      if get_indent nl > indent then s1.pushFrame (get_indent nl) .REGULAR_BRACE []
      else s1
    | none => s1
  else
    let s1 := s.appendOut line
    match peek_next_line s1 with
    | some nl =>
      let nc := get_content nl
      if !nc.isEmpty && !((cs "//").isPrefixOf nc) && get_indent nl > indent then
        s1.pushFrame (get_indent nl) .REGULAR_BRACE []
      else s1
    | none => s1

/-- Lines 470–509: `} while ...` on one line after a `do` block. -/
def braceWhileBranch (s : St) (line : Line) (stripped_content : Line) : St :=
  let while_part := pyLstrip (stripped_content.drop 2)
  let condition_part0 :=
    if (cs "while ").isPrefixOf while_part then pyLstrip (while_part.drop 6)
    else if (cs "while(").isPrefixOf while_part then while_part.drop 5
    else while_part
  let pr :=
    match find_line_comment condition_part0 with
    | some p =>
      let code := pyRstrip (condition_part0.take p)
      (code, (condition_part0.take p).drop code.length ++ condition_part0.drop p)
    | none => (pyRstrip condition_part0, ([] : Line))
  let condition_part := pr.1
  let wrapped :=
    if !(condition_part.head? = some '(' && condition_part.getLast? = some ')') then
      cs "\x7d while (" ++ condition_part ++ cs ");"
    else cs "\x7d while " ++ condition_part ++ [';']
  s.appendOut (get_leading_ws line ++ wrapped ++ pr.2)

/-- Lines 511–522: a bare `}` line. -/
def closeBraceBranch (s : St) (line : Line) (indent : Nat) : St :=
  let s1 :=
    if s.indent_stack.length > 1 && indent < s.topIndent then
      let a := { s with indent_stack := s.indent_stack.tail }
      let b :=
        if a.block_type_stack.length > 1 then
          { a with block_type_stack := a.block_type_stack.tail }
        else a
      if b.whitespace_stack.length > 1 then
        { b with whitespace_stack := b.whitespace_stack.tail }
      else b
    else s
  s1.appendOut line

/-- Lines 656–696: the `while` clause closing a `do:` block. -/
def whileClauseBranch (s : St) (line : Line) (content : Line) : St :=
  let stripped_content := pyStrip content
  let wrapped :=
    if (cs "while ").isPrefixOf stripped_content then
      let condition_part0 := pyLstrip (stripped_content.drop 6)
      let pr :=
        match find_line_comment condition_part0 with
        | some p =>
          let code := pyRstrip (condition_part0.take p)
          (code, (condition_part0.take p).drop code.length ++ condition_part0.drop p)
        | none => (pyRstrip condition_part0, ([] : Line))
      let condition_part := pr.1
      (if !(condition_part.head? = some '(' && condition_part.getLast? = some ')') then
        cs "while (" ++ condition_part ++ cs ");"
      else cs "while " ++ condition_part ++ [';']) ++ pr.2
    else stripped_content ++ [';']
  if !s.output.isEmpty && pyStrip s.lastOut = cs "\x7d" then
    s.popOut.appendOut (get_leading_ws line ++ cs "\x7d " ++ wrapped)
  else s.appendOut (get_leading_ws line ++ wrapped)

/-- Lines 698–708: a regular statement. -/
def statementBranch (s : St) (line : Line) (indent : Nat) (content : Line) : St :=
  let is_continuing := is_continuation s content
  let s1 := output_with_semicolon s line is_continuing
  if is_continuing then
    { s1 with
        continuation_indent := some indent,
        paren_depth :=
          (((content.count '(') + (content.count '[') : Nat) : Int) -
          (((content.count ')') + (content.count ']') : Nat) : Int) }
  else s1

/-- Lines 561–575: the frame push after an else/catch block opener. -/
def elseCatchPush (s : St) (bt : BlockType) (indent : Nat) (leading_ws : Line) : St :=
  match peek_next_line s with
  | some nl =>
    let nc := get_content nl
    if !nc.isEmpty && !((cs "//").isPrefixOf nc) && get_indent nl > indent then
      s.pushFrame (get_indent nl) bt leading_ws
    else s
  | none => s.pushFrame (indent + 4) bt leading_ws

/-- Lines 591–650: the frame push after a regular colon block opener
(including the access-specifier lookahead for classes/structs and the
continuation-aware base indent). -/
def colonRegularPush (s : St) (bt : BlockType) (indent : Nat)
    (leading_ws : Line) (ending_cont : Bool) : St :=
  match peek_next_line s with
  | none => s
  | some nl =>
    let ni0 := get_indent nl
    let nc0 := get_content nl
    let lookahead :=
      if (bt = BlockType.CLASS || bt = BlockType.STRUCT) && !nc0.isEmpty then
        match find_trailing_colon nc0 with
        | some (b, _) =>
          if pyStrip b = cs "public" || pyStrip b = cs "private" ||
             pyStrip b = cs "protected" then
            match accessPeek (s.lines.drop (s.current + 2)) with
            | some pl => some (get_indent pl, get_content pl)
            | none => none
          else none
        | none => none
      else none
    let ni := (lookahead.map Prod.fst).getD ni0
    let nc := (lookahead.map Prod.snd).getD nc0
    if !nc.isEmpty && !((cs "//").isPrefixOf nc) then
      let bw :=
        if ending_cont then
          match contStartSearch indent ((s.lines.take s.current).reverse) with
          | some pl => (get_indent pl, get_leading_ws pl)
          | none => (0, leading_ws)
        else (indent, leading_ws)
      if ni > bw.1 then s.pushFrame ni bt bw.2
      else if pyStrip nc = cs "pass" then s.pushFrame (bw.1 + 4) bt bw.2
      else s
    else s

/-- Lines 524–654: a line with a trailing block-opening colon. -/
def colonBranch (s : St) (line : Line) (indent : Nat) (before after : Line)
    (ending_cont : Bool) : St :=
  let leading_ws := get_leading_ws line
  if should_keep_colon before then
    s.appendOut (leading_ws ++ before ++ [':'] ++ after)
  else
    let bt := detect_block_type before
    let stripped_before := pyStrip before
    let keyword := firstWord stripped_before
    if keyword = cs "else" || keyword = cs "catch" then
      let wrapped := wrap_condition_if_needed stripped_before
      let s1 :=
        if !s.output.isEmpty && pyStrip s.lastOut = cs "\x7d" then
          (s.popOut.appendOut
            (leading_ws ++ cs "\x7d " ++ wrapped ++ cs " \x7b" ++ after)).flushBlanks
        else
          s.flushBlanks.appendOut (leading_ws ++ wrapped ++ cs " \x7b" ++ after)
      { elseCatchPush s1 bt indent leading_ws with continuation_indent := none }
    else
      let wrapped := wrap_condition_if_needed before
      let s2 := s.flushBlanks.appendOut (leading_ws ++ wrapped ++ cs " \x7b" ++ after)
      { colonRegularPush s2 bt indent leading_ws ending_cont with
          continuation_indent := none }

/-- Lines 418–431: is the line an else/catch clause (colon or brace form),
so that pending blank lines must not be flushed before it? -/
def mightBeElseOrCatch (content : Line) : Bool :=
  (match find_trailing_colon content with
   | some (b, _) =>
     let kwd := firstWord (pyStrip b)
     kwd = cs "else" || kwd = cs "catch"
   | none => false) ||
  ((pyRstrip content).getLast? = some '{' &&
   ((cs "else ").isPrefixOf (pyStrip content) ||
    (cs "catch ").isPrefixOf (pyStrip content)))

/-- Lines 436–708 of `_process_line`: the chain of line classifications
(after the conditional blank-line flush). -/
def stage5Core (s : St) (line : Line) (indent : Nat) (content : Line)
    (ending_cont : Bool) : St :=
  if (pyRstrip content).getLast? = some '{' &&
     !((cs "\x7b\x7b").isSuffixOf (pyRstrip content)) then
    regularBraceBranch s line indent content
  else if ((cs "\x7d while ").isPrefixOf (pyStrip content) ||
           (cs "\x7d while(").isPrefixOf (pyStrip content)) && s.is_do_while then
    braceWhileBranch s line (pyStrip content)
  else if pyStrip content = cs "\x7d" then
    closeBraceBranch s line indent
  else
    match find_trailing_colon content with
    | some (before, after) => colonBranch s line indent before after ending_cont
    | none =>
      if is_while_clause_for_do s content then whileClauseBranch s line content
      else statementBranch s line indent content

/-- Lines 418–708 of `_process_line`: everything after the continuation
handling (else/catch detection, pending-blank flushing, and the chain of
line classifications). -/
def stage5 (s : St) (line : Line) (indent : Nat) (content : Line)
    (ending_cont : Bool) : St :=
  stage5Core (if !mightBeElseOrCatch content then s.flushBlanks else s)
    line indent content ending_cont

/-- Lines 365–416 of `_process_line`: dedent handling (including the
access-specifier special case), then `stage5`. -/
def afterCont (s : St) (line : Line) (indent : Nat) (content : Line)
    (started ending_cont : Bool) : St :=
  let acc : Option St :=
    if !started && indent < s.topIndent then
      match find_trailing_colon content with
      | some (b, _) =>
        if (pyStrip b = cs "public" || pyStrip b = cs "private" ||
            pyStrip b = cs "protected") &&
           s.block_type_stack.any
             (fun bt => bt = BlockType.CLASS || bt = BlockType.STRUCT) then
          some (accessSpecBranch s line content)
        else none
      | none => none
    else none
  match acc with
  | some s' => s'
  | none =>
    let s :=
      if !started && indent < s.topIndent then
        let saved := s.pending_blank_lines
        let s1 := dedentLoop indent true content { s with pending_blank_lines := [] }
        { s1 with pending_blank_lines := saved }
      else s
    stage5 s line indent content ending_cont

/-- `Compiler._process_line`. -/
def processLine (s : St) : St :=
  let line := s.lines.getD s.current []
  let started := s.in_block_comment
  let s := { s with in_block_comment := updBC s.in_block_comment line }
  if started || s.in_block_comment then s.appendOut line
  else
    let indent := get_indent line
    let content := get_content line
    if content.isEmpty || (cs "//").isPrefixOf (pyLstrip content) then
      blankCommentBranch s line indent content
    else if s.control_keyword.isSome then
      controlCollect s line content
    else
      let stripped := pyStrip content
      let ctl : Option St :=
        match detectKw stripped with
        | none => none
        | some kw =>
          if kw = cs "while" && s.is_do_while then none
          else
            match find_trailing_colon content with
            | some _ => none
            | none =>
              let condition_part := pyLstrip (stripped.drop kw.length)
              if condition_part.head? = some '(' then none
              else if content.contains '{' then some (ctlBraceLine s line indent content)
              else
                some { s with control_keyword := some kw,
                              control_condition_lines := [line],
                              control_start_indent := some indent }
      match ctl with
      | some s' => s'
      | none =>
        match s.continuation_indent with
        | some ci =>
          if indent ≥ ci then
            match find_trailing_colon content with
            | some _ =>
              afterCont { s with continuation_indent := none } line indent content
                started true
            | none => contBody s line indent content
          else
            afterCont { s with continuation_indent := none } line indent content
              started false
        | none => afterCont s line indent content started false

/-- The initial `Compiler` state (`Compiler.__init__`). -/
def initSt (input : List Line) : St :=
  { lines := input.map rstripNl, output := [], source_lines := [], tracked := false,
    source_line_context := 1, current := 0,
    indent_stack := [0], block_type_stack := [.NORMAL], whitespace_stack := [[]],
    in_block_comment := false, continuation_indent := none, pending_blank_lines := [],
    paren_depth := 0, control_keyword := none, control_condition_lines := [],
    control_start_indent := none }

/-- One iteration of the `Compiler.compile` loop. -/
def stepOnce (s : St) : St :=
  let s' := processLine s
  { s' with current := s'.current + 1 }

/-- `n` iterations of the `Compiler.compile` loop. -/
def stepsN : Nat → St → St
  | 0, s => s
  | n+1, s => stepsN n (stepOnce s)

/-- `'\n'.join(output) + '\n'`. -/
def joinNL : List Line → Line
  | [] => ['\n']
  | [l] => l ++ ['\n']
  | l :: rest => l ++ '\n' :: joinNL rest

/-- The final state of `Compiler.compile` (loop, then the drain of the
remaining open blocks with the pending blank lines re-appended last). -/
def Compiler.finalSt (input : List Line) : St :=
  let s0 := initSt input
  let s1 := stepsN s0.lines.length s0
  let saved := s1.pending_blank_lines
  let s2 := drainLoop { s1 with pending_blank_lines := [] }
  s2.extendOut saved

/-- `Compiler.compile`. -/
def Compiler.compile (input : List Line) : Line :=
  joinNL (Compiler.finalSt input).output.reverse

/-- One iteration of the `MappingCompiler.compile` loop (sets
`_source_line_context` before processing the line). -/
def stepOnceM (s : St) : St :=
  let s1 := { s with source_line_context := (s.current : Int) + 1 }
  let s2 := processLine s1
  { s2 with current := s2.current + 1 }

def stepsM : Nat → St → St
  | 0, s => s
  | n+1, s => stepsM n (stepOnceM s)

/-- The final state of `MappingCompiler.compile`. -/
def MappingCompiler.finalSt (input : List Line) : St :=
  let s0 := { initSt input with tracked := true }
  let s1 := stepsM s0.lines.length s0
  let s1 :=
    { s1 with source_line_context :=
        if s1.lines.isEmpty then 1 else (s1.lines.length : Int) }
  let saved := s1.pending_blank_lines
  let s2 := drainLoopM { s1 with pending_blank_lines := [] }
  s2.extendOut saved

/-- `MappingCompiler.compile`. -/
def MappingCompiler.compile (input : List Line) : Line :=
  joinNL (MappingCompiler.finalSt input).output.reverse

/-- The recorded source lines of a `MappingCompiler` run
(`TrackedOutputList.source_lines`, in Python order). -/
def MappingCompiler.sourceLines (input : List Line) : List Int :=
  (MappingCompiler.finalSt input).source_lines.reverse

/-- `LineMapper.get_source_line` over the recorded list. -/
def LineMapper.get_source_line (source_lines : List Int) (output_line : Int) : Int :=
  let idx := output_line - 1
  if 0 ≤ idx ∧ idx < (source_lines.length : Int) then source_lines.getD idx.toNat 0
  else output_line

/-- Brace balance of a text, counting `\x7b` and `\x7d` only outside string
literals and outside `//` and block comments (the measure named by the
spec's brace-balance property). -/
def braceBalanceGo (inStr : Bool) (delim : Char) (inLC inBC : Bool)
    (bal : Int) : Nat → Line → Int
  | _, [] => bal
  | 0, _ => bal
  | fuel+1, c :: rest =>
    if inLC then
      if c = '\n' then braceBalanceGo false delim false inBC bal fuel rest
      else braceBalanceGo inStr delim true inBC bal fuel rest
    else if inBC then
      if c = '*' && rest.head? = some '/' then
        braceBalanceGo inStr delim inLC false bal fuel rest.tail
      else braceBalanceGo inStr delim inLC true bal fuel rest
    else if inStr then
      if c = '\\' then braceBalanceGo inStr delim inLC inBC bal fuel rest.tail
      else if c = delim then braceBalanceGo false delim inLC inBC bal fuel rest
      else braceBalanceGo inStr delim inLC inBC bal fuel rest
    else
      if c = '/' && rest.head? = some '/' then
        braceBalanceGo inStr delim true inBC bal fuel rest.tail
      else if c = '/' && rest.head? = some '*' then
        braceBalanceGo inStr delim inLC true bal fuel rest.tail
      else if c = '"' then braceBalanceGo true '"' inLC inBC bal fuel rest
      else if c = '\'' then braceBalanceGo true '\'' inLC inBC bal fuel rest
      else if c = '{' then braceBalanceGo inStr delim inLC inBC (bal + 1) fuel rest
      else if c = '}' then braceBalanceGo inStr delim inLC inBC (bal - 1) fuel rest
      else braceBalanceGo inStr delim inLC inBC bal fuel rest

def braceBalance (text : Line) : Int :=
  braceBalanceGo false '"' false false 0 text.length text

/-- Split a produced text back into lines, the way the translated text
would be read back in (`str.splitlines` / `readlines` without the
newlines: segments between `\n`, with no final empty segment for a
trailing newline). -/
def splitNlGo (acc : Line) : Line → List Line
  | [] => [acc.reverse]
  | c :: rest =>
    if c = '\n' then acc.reverse :: splitNlGo [] rest
    else splitNlGo (c :: acc) rest

def splitLines (text : Line) : List Line :=
  let segs := splitNlGo [] text
  if segs.getLast? = some [] then segs.dropLast else segs

/-! ## The header inliner (`expand_blh_includes` and `resolve_include`)

The filesystem is modelled as a finite association list from (absolute)
path to file contents; `os.path.join` is string concatenation with `/`,
`os.path.abspath` is the identity on these paths. -/

abbrev FileSys := List (String × List String)

def lookupFile (fs : FileSys) (p : String) : Option (List String) :=
  (fs.find? (fun e => e.1 = p)).map Prod.snd

def fileExists (fs : FileSys) (p : String) : Bool := (lookupFile fs p).isSome

def joinPath (dir name : String) : String := dir ++ "/" ++ name

def dirnameOf (p : String) : String :=
  match rindexSub? ['/'] p.toList with
  | some i => String.mk (p.toList.take i)
  | none => ""

/-- `resolve_include`: first search directory containing the file wins. -/
def resolve_include (fs : FileSys) (filename : String) : List String → Option String
  | [] => none
  | d :: rest =>
    let full := joinPath d filename
    if fileExists fs full then some full else resolve_include fs filename rest

/-- Case-insensitive literal match consuming a prefix. -/
def matchCI (pat : Line) (l : Line) : Option Line :=
  match pat, l with
  | [], l => some l
  | _, [] => none
  | p :: ps, c :: rest => if c.toLower = p.toLower then matchCI ps rest else none

/-- `BLH_INCLUDE_PATTERN.match(line)`: the regex
`^(\s*)#\s*include\s*"([^"]*\.blh)"` with `re.IGNORECASE`; returns the
captured header name. -/
def matchInclude (line : Line) : Option String :=
  match line.dropWhile isPySpace with
  | '#' :: rest =>
    match matchCI (cs "include") (rest.dropWhile isPySpace) with
    | none => none
    | some r3 =>
      match r3.dropWhile isPySpace with
      | '"' :: r5 =>
        let name := r5.takeWhile (fun c => c ≠ '"')
        if (r5.drop name.length).head? = some '"' &&
           (cs ".blh").isSuffixOf (name.map Char.toLower) then
          some (String.mk name)
        else none
      | _ => none
  | _ => none

/-- An expanded output line: text together with its origin
`(file, 1-based line)` — the per-line content of the returned `line_map`. -/
abbrev OutLine := String × String × Nat

inductive ExpErr where
  | fuelOut
  | notFound (p : String)
deriving DecidableEq, Repr

/-- The body of the `for src_line_num, line in enumerate(source_lines, 1)`
loop of `expand_blh_includes`, abstracted over the recursive expansion of
a header file (`recur`). -/
def expandStep (fs : FileSys) (search_dirs : List String) (source_path : String)
    (recur : String → List String → Except ExpErr (List OutLine × List String))
    (acc : Except ExpErr (List OutLine × List String)) (ln : Nat × String) :
    Except ExpErr (List OutLine × List String) :=
  match acc with
  | .error e => .error e
  | .ok (outs, included) =>
    match matchInclude ln.2.toList with
    | none => .ok (outs ++ [(ln.2, source_path, ln.1)], included)
    | some blh_name =>
      match resolve_include fs blh_name search_dirs with
      | none =>
        -- header not found: keep the include line as-is
        .ok (outs ++ [(ln.2, source_path, ln.1)], included)
      | some blh_path =>
        if included.contains blh_path then
          -- already included (pragma-once): skip entirely
          .ok (outs, included)
        else
          match recur blh_path (blh_path :: included) with
          | .error e => .error e
          | .ok (sub, included') => .ok (outs ++ sub, included')

/-- `expand_blh_includes` with explicit fuel for the recursion into
headers (the Python recursion terminates because every recursive call
inserts a fresh existing path into `included_files`; fuel larger than the
number of files is therefore never exhausted). -/
def expandFile (fs : FileSys) (inc_dirs : List String) :
    Nat → String → List String → Except ExpErr (List OutLine × List String)
  | 0, _, _ => .error .fuelOut
  | fuel+1, source_path, included =>
    match lookupFile fs source_path with
    | none => .error (.notFound source_path)
    | some src_lines =>
      let search_dirs := dirnameOf source_path :: inc_dirs
      (src_lines.enumFrom 1).foldl
        (expandStep fs search_dirs source_path
          (fun p inc => expandFile fs inc_dirs fuel p inc))
        (.ok ([], included))

/-- `expand_blh_includes(source_path, include_dirs)` with an empty initial
included-set. -/
def expand_blh_includes (fs : FileSys) (inc_dirs : List String) (source_path : String) :
    Except ExpErr (List OutLine × List String) :=
  expandFile fs inc_dirs (fs.length + 1) source_path []

/-! ## Claim-side auxiliary definitions -/

/-- The three-parallel-stacks invariant of the translator state: equal
depths, non-empty, and the base elements (`0`, `NORMAL`, `""`) still at the
bottom (our stacks are top-at-head, so the base is the last element). -/
def StackInv (s : St) : Prop :=
  s.indent_stack.length = s.block_type_stack.length ∧
  s.indent_stack.length = s.whitespace_stack.length ∧
  s.indent_stack ≠ [] ∧
  s.indent_stack.getLast? = some 0 ∧
  s.block_type_stack.getLast? = some .NORMAL ∧
  s.whitespace_stack.getLast? = some []

/-- Index of the first-opened paren's matching close: the first position
carrying `)` at which the running paren depth returns to zero. -/
def matchingCloseGo (depth : Int) (i : Nat) : Line → Option Nat
  | [] => none
  | c :: rest =>
    let d := if c = '(' then depth + 1 else if c = ')' then depth - 1 else depth
    if c = ')' ∧ d = 0 then some i else matchingCloseGo d (i+1) rest

def matchingClose (l : Line) : Option Nat := matchingCloseGo 0 0 l

/-- The closing-brace line that `_output_closing_brace` would append for a
frame of type `bt` with whitespace `ws`, in state `s` processing `cur`. -/
def emittedBrace (s : St) (bt : BlockType) (ws cur : Line) : Line :=
  (output_closing_brace { s with output := [] } bt ws cur).lastOut

/-- The closing-brace lines (in emission order) produced when the
access-specifier pop loop pops the given frames (top first); popped
`REGULAR_BRACE` frames emit nothing. -/
def accessBraces (s : St) (cur : Line) : List BlockType → List Line → List Line
  | bt :: bts, ws :: wss =>
    (if bt = .REGULAR_BRACE then [] else [emittedBrace s bt ws cur]) ++
    accessBraces s cur bts wss
  | _, _ => []

/-- A mid-compilation state: inside `class C:` whose method `int f():` has
an open body, about to process the line `public:`. -/
def c5ExSt : St :=
  { lines := [cs "class C:", cs "    int f():", cs "        return 1", cs "public:"],
    output := [cs "        return 1;", cs "    int f() \x7b", cs "class C \x7b"],
    source_lines := [], tracked := false, source_line_context := 1, current := 3,
    indent_stack := [8, 4, 0],
    block_type_stack := [BlockType.NORMAL, BlockType.CLASS, BlockType.NORMAL],
    whitespace_stack := [cs "    ", [], []],
    in_block_comment := false, continuation_indent := none,
    pending_blank_lines := [], paren_depth := 0, control_keyword := none,
    control_condition_lines := [], control_start_indent := none }

/-- A cyclic filesystem: `a.blh` and `b.blh` include each other, and
`main.blc` includes `a.blh` twice. -/
def fsCyc : FileSys :=
  [("/src/main.blc", ["#include \"a.blh\"", "int x;", "#include \"a.blh\""]),
   ("/src/a.blh", ["int a;", "#include \"b.blh\""]),
   ("/src/b.blh", ["int b;", "#include \"a.blh\""])]

/-! ## Theorems -/

/-- C1: on the four-line input `int main():` / `    if x > 0:` /
`        return 1` / `    return 0`, `Compiler.compile` returns exactly the
six expected lines followed by a trailing newline: colon openers become
` {`, the elided condition is parenthesized, statements receive `;`, and
each synthetic `}` carries its opener's leading whitespace. -/
theorem c1_basic_block_scenario :
    Compiler.compile
      [cs "int main():", cs "    if x > 0:", cs "        return 1", cs "    return 0"] =
    cs "int main() \x7b\n    if (x > 0) \x7b\n        return 1;\n    \x7d\n    return 0;\n\x7d\n" := by
  decide

/-- C2 (code bug): the brace balance of a translated output is not always
zero.  On the single-line input `if x:` (a block opener with no body
line), the translator emits `if (x) {` but — because there is no more
indented next line — never pushes a frame for the block, so no closing
brace is ever drained and the output's brace balance is 1, not 0. -/
theorem c2_balance_counterexample :
    Compiler.compile [cs "if x:"] = cs "if (x) \x7b\n" ∧
    braceBalance (Compiler.compile [cs "if x:"]) = 1 := by
  constructor <;> decide

/-- C3 (code bug): when a `do:` body ends inside a nested block, the
matching `while` clause at the `do`'s indent is not emitted as
`} while (cond);` — it is silently dropped.  `_is_do_while` walks the
emitted output backwards and returns `false` upon the nested opener
`if (c) {`, so the `while` line is instead collected as the start of a
multiline control condition that is never flushed before end of input. -/
theorem c3_do_while_clause_dropped :
    Compiler.compile [cs "do:", cs "    if c:", cs "        x", cs "while x < 10"] =
      cs "do \x7b\n    if (c) \x7b\n        x;\n    \x7d\n\x7d\n" ∧
    containsSub (cs "while")
      (Compiler.compile [cs "do:", cs "    if c:", cs "        x", cs "while x < 10"]) = false := by
  constructor <;> decide

/-- C4 (code bug): translation is not idempotent on its own output.  The
spec's own do-while scenario translates to `do {` / `    x += 1;` /
`} while (x < 10);`, but re-translating that output wraps the
already-parenthesized, semicolon-terminated condition again, producing
`} while ((x < 10););`. -/
theorem c4_not_idempotent :
    Compiler.compile [cs "do:", cs "    x += 1", cs "while x < 10"] =
      cs "do \x7b\n    x += 1;\n\x7d while (x < 10);\n" ∧
    Compiler.compile
        (splitLines (Compiler.compile [cs "do:", cs "    x += 1", cs "while x < 10"])) =
      cs "do \x7b\n    x += 1;\n\x7d while ((x < 10););\n" ∧
    Compiler.compile
        (splitLines (Compiler.compile [cs "do:", cs "    x += 1", cs "while x < 10"])) ≠
      Compiler.compile [cs "do:", cs "    x += 1", cs "while x < 10"] := by
  refine ⟨by decide, by decide, by decide⟩

/-- C6 counterexample: a statement line whose last meaningful token is the
continuation operator `.` is *not* treated as a continuation, and a
semicolon *is* appended to it: `a.` followed by `b` translates to `a.;` /
`b;`. -/
theorem c6_dot_counterexample :
    is_continuation (initSt [cs "a.", cs "b"]) (cs "a.") = false ∧
    Compiler.compile [cs "a.", cs "b"] = cs "a.;\nb;\n" := by
  constructor <;> decide

/-- C10 counterexample: a `MappingCompiler` run on `if a:` / `    x` /
`else:` / `    y` generates 5 output lines (the else/catch merge pops the
bare `}` line but `TrackedOutputList.pop` does not pop its recorded source
line), leaving 6 recorded source lines `[1,2,3,3,4,4]`; for `k = 6`, which
is outside the range `1 ≤ k ≤ 5` of generated output lines, the mapper
returns the recorded entry 4 — not `k` itself. -/
theorem c10_mapper_counterexample :
    (MappingCompiler.finalSt [cs "if a:", cs "    x", cs "else:", cs "    y"]).output.length = 5 ∧
    MappingCompiler.sourceLines [cs "if a:", cs "    x", cs "else:", cs "    y"] =
      [1, 2, 3, 3, 4, 4] ∧
    LineMapper.get_source_line
      (MappingCompiler.sourceLines [cs "if a:", cs "    x", cs "else:", cs "    y"]) 6 = 4 := by
  refine ⟨by decide, by decide, by decide⟩

end Blcc

namespace Blcc

/-- C10 (amended): `LineMapper.get_source_line` is total over all
integers: when `1 ≤ k ≤ len(source_lines)` — the number of *recorded*
append events, which can exceed the number of generated output lines
when else/catch merges pop output lines — it returns the recorded entry
`source_lines[k-1]`; for every `k` outside that range it returns `k`
itself. -/
theorem c10_mapper_total (sl : List Int) (k : Int) :
    (1 ≤ k → k ≤ (sl.length : Int) →
      LineMapper.get_source_line sl k = sl.getD (k - 1).toNat 0) ∧
    (k < 1 ∨ (sl.length : Int) < k → LineMapper.get_source_line sl k = k) := by
  unfold LineMapper.get_source_line
  constructor
  · intro h1 h2
    rw [if_pos ⟨by omega, by omega⟩]
  · intro h
    rw [if_neg]
    omega

/-- Witness for `c10_mapper_total` at the concrete list `[5, 7]`. -/
theorem c10_mapper_total_witness :
    LineMapper.get_source_line [5, 7] 2 = [(5 : Int), 7].getD ((2 : Int) - 1).toNat 0 ∧
    LineMapper.get_source_line [5, 7] 9 = 9 :=
  ⟨(c10_mapper_total [5, 7] 2).1 (by decide) (by decide),
   (c10_mapper_total [5, 7] 9).2 (by decide)⟩



/-- The scan of `_wrap_condition_if_needed` returns the line unchanged
exactly when the first-opened paren's matching close sits at the given
final position. -/
theorem wcScan_eq_matchingClose (l : Line) :
    ∀ i depth len, wcScan i depth len l =
      decide (matchingCloseGo depth i l = some (len - 1)) := by
  induction l with
  | nil => intro i depth len; simp [wcScan, matchingCloseGo]
  | cons c rest ih =>
    intro i depth len
    by_cases hp : c = '('
    · subst hp
      simp [wcScan, matchingCloseGo, ih]
    · by_cases hq : c = ')'
      · subst hq
        by_cases hd : depth - 1 = 0
        · simp [wcScan, matchingCloseGo, hd]
        · simp [wcScan, matchingCloseGo, hd, ih]
      · simp [wcScan, matchingCloseGo, hp, hq, ih]

/-- C7: for a control line whose post-keyword text begins with `(`, the
translator re-wraps the entire pre-colon condition in parentheses exactly
when the first-opened paren's matching close is not the final character;
when the matching close is the final character the text is left as-is.
Concretely, `if (a) && b:` is emitted as `if ((a) && b) {`. -/
theorem c7_condition_wrap (before kw : Line)
    (hkw : detectKw (pyStrip before) = some kw)
    (hparen : (pyLstrip ((pyStrip before).drop kw.length)).head? = some '(') :
    (matchingClose (pyLstrip ((pyStrip before).drop kw.length)) ≠
        some ((pyLstrip ((pyStrip before).drop kw.length)).length - 1) →
      wrap_condition_if_needed before =
        before.take (before.length - (pyLstrip before).length) ++ kw ++ cs " (" ++
          pyLstrip ((pyStrip before).drop kw.length) ++ [')']) ∧
    (matchingClose (pyLstrip ((pyStrip before).drop kw.length)) =
        some ((pyLstrip ((pyStrip before).drop kw.length)).length - 1) →
      wrap_condition_if_needed before = before) ∧
    wrap_condition_if_needed (cs "if (a) && b") = cs "if ((a) && b)" ∧
    Compiler.compile [cs "if (a) && b:", cs "    x"] =
      cs "if ((a) && b) \x7b\n    x;\n\x7d\n" := by
  refine ⟨?_, ?_, by decide, by decide⟩
  · intro h
    simp only [wrap_condition_if_needed, hkw]
    rw [wcScan_eq_matchingClose]
    rw [hparen]
    simp only [matchingClose] at h
    simp [h]
    by_cases hkwe : kw = cs "else if"
    · subst hkwe
      simp
      rw [show cs "else if (" = cs "else if" ++ cs " (" from by decide]
      simp [List.append_assoc]
    · simp [hkwe]
  · intro h
    simp only [wrap_condition_if_needed, hkw]
    rw [wcScan_eq_matchingClose]
    rw [hparen]
    simp only [matchingClose] at h
    simp [h]

/-- Witness for `c7_condition_wrap` at `if (a) && b` (the matching close
of the first paren is at index 2, not at the end, so the condition is
re-wrapped). -/
theorem c7_condition_wrap_witness :
    wrap_condition_if_needed (cs "if (a) && b") =
      (cs "if (a) && b").take
          ((cs "if (a) && b").length - (pyLstrip (cs "if (a) && b")).length) ++
        cs "if" ++ cs " (" ++
        pyLstrip ((pyStrip (cs "if (a) && b")).drop (cs "if").length) ++ [')'] :=
  (c7_condition_wrap (cs "if (a) && b") (cs "if") (by decide) (by decide)).1 (by decide)

end Blcc

namespace Blcc

theorem lstripBy_eq_dropWhile (p : Char → Bool) : ∀ l, lstripBy p l = l.dropWhile p := by
  intro l
  induction l with
  | nil => rfl
  | cons c t ih =>
    by_cases h : p c <;> simp [lstripBy, List.dropWhile_cons, h, ih]

theorem dropWhile_head_false (p : Char → Bool) :
    ∀ (l : Line) (c : Char), (l.dropWhile p).head? = some c → p c = false := by
  intro l
  induction l with
  | nil => intro c h; simp at h
  | cons a t ih =>
    intro c h
    by_cases ha : p a
    · rw [List.dropWhile_cons_of_pos ha] at h; exact ih c h
    · rw [List.dropWhile_cons_of_neg ha] at h
      simp at h
      subst h
      simpa using ha

theorem pyRstrip_getLast (l : Line) (c : Char) :
    (pyRstrip l).getLast? = some c → isPySpace c = false := by
  intro h
  unfold pyRstrip rstripBy at h
  rw [List.getLast?_reverse] at h
  rw [lstripBy_eq_dropWhile] at h
  exact dropWhile_head_false _ _ _ h

theorem pyStrip_nil (l : Line) (h : pyStrip l = []) : pyRstrip l = [] := by
  unfold pyStrip pyLstrip at h
  rw [lstripBy_eq_dropWhile, List.dropWhile_eq_nil_iff] at h
  rcases he : pyRstrip l with _ | ⟨a, t⟩
  · rfl
  · exfalso
    have hmem : (a :: t).getLast (by simp) ∈ pyRstrip l := by
      rw [he]; exact List.getLast_mem _
    have h2 := h _ hmem
    have hlast : (pyRstrip l).getLast? = some ((a :: t).getLast (by simp)) := by
      rw [he]; exact List.getLast?_eq_getLast _ _
    have h1 := pyRstrip_getLast l _ hlast
    rw [h1] at h2
    exact Bool.false_ne_true h2

theorem flcGo_no_slash : ∀ l, (∀ a ∈ l, a ≠ '/') → ∀ prev i inStr, flcGo prev i inStr l = none := by
  intro l
  induction l with
  | nil => intros; rfl
  | cons c t ih =>
    intro h prev i inStr
    have hc : c ≠ '/' := h c (by simp)
    unfold flcGo
    by_cases hp : prev = some '\\'
    · simp only [hp, if_pos rfl]
      exact ih (fun a ha => h a (by simp [ha])) _ _ _
    · rw [if_neg hp]
      have hd : (decide (c = '/')) = false := by simp [hc]
      simp only [hd, Bool.and_false, Bool.false_and, Bool.false_eq_true, if_false]
      exact ih (fun a ha => h a (by simp [ha])) _ _ _

theorem meaningfulTail_nil (content : Line) (h : pyRstrip content = []) :
    meaningfulTail content = [] := by
  unfold meaningfulTail
  rw [h]
  rfl

end Blcc

namespace Blcc

/-- C6 (amended): a statement line whose last meaningful character (after
stripping a trailing `//` comment) is one of `+ - * / % & | ^ = < > , ( [ {`
and which does not end in `++` or `--` is treated as a continuation —
`_is_continuation` is true and the statement path appends the line
unchanged (no semicolon) while recording the continuation indent and the
paren depth.  Compound operators ending in one of these characters (such
as `->`, `<<=`) are covered; trailing `.` and `::` are *not* (see the
counterexample). -/
theorem c6_continuation_ops (s : St) (line content : Line) (indent : Nat) (t : Line)
    (hcl : get_content line = content)
    (ht : meaningfulTail content = t)
    (hne : t.isEmpty = false)
    (hpp : (cs "++").isSuffixOf t = false)
    (hmm2 : (cs "--").isSuffixOf t = false)
    (hlast : (cs "+-*/%&|^=<>,([\x7b").contains (t.getLast?.getD ' ') = true) :
    is_continuation s content = true ∧
    statementBranch s line indent content =
      { s.appendOut line with
          continuation_indent := some indent,
          paren_depth :=
            (((content.count '(') + (content.count '[') : Nat) : Int) -
            (((content.count ')') + (content.count ']') : Nat) : Int) } := by
  have h1 : is_continuation s content = true := by
    simp [is_continuation, ht, hne, hpp, hmm2]
    exact Or.inl (by simpa using hlast)
  have hE : pyStrip content ≠ [] := by
    intro he
    have h2 := meaningfulTail_nil content (pyStrip_nil content he)
    rw [ht] at h2
    rw [h2] at hne
    simp at hne
  have hPass : pyStrip content ≠ cs "pass" := by
    intro hp
    have hp' : List.dropWhile isPySpace (pyRstrip content) = cs "pass" := by
      have := hp
      unfold pyStrip pyLstrip at this
      rw [lstripBy_eq_dropWhile] at this
      exact this
    have hdec : pyRstrip content = (pyRstrip content).takeWhile isPySpace ++ cs "pass" := by
      conv_lhs => rw [← List.takeWhile_append_dropWhile isPySpace (pyRstrip content)]
      rw [hp']
    have hnoslash : ∀ a ∈ pyRstrip content, a ≠ '/' := by
      intro a ha
      rw [hdec] at ha
      rcases List.mem_append.mp ha with h2 | h2
      · have h3 := List.mem_takeWhile_imp h2
        intro heq
        subst heq
        simp [isPySpace] at h3
      · intro heq
        subst heq
        revert h2
        decide
    have hflc : find_line_comment (pyRstrip content) = none := flcGo_no_slash _ hnoslash _ _ _
    have htv : t = pyRstrip content := by
      rw [← ht]
      simp only [meaningfulTail, hflc]
    have hl : t.getLast? = some 's' := by
      rw [htv, hdec, List.getLast?_append]
      have h4 : (cs "pass").getLast? = some 's' := by decide
      rw [h4]
      rfl
    rw [hl] at hlast
    exact absurd hlast (by decide)
  have hout : output_with_semicolon s line true false = s.appendOut line := by
    unfold output_with_semicolon
    rw [hcl]
    have hE2 : (pyStrip content).isEmpty = false := by
      cases hx : (pyStrip content).isEmpty
      · rfl
      · exact absurd (List.isEmpty_iff.mp hx) hE
    simp only [hE2, Bool.false_eq_true, if_false]
    rw [if_neg hPass]
    by_cases henum : s.block_type_stack.headD BlockType.NORMAL = BlockType.ENUM
    · rw [if_pos henum]
    · rw [if_neg henum]
      simp
  refine ⟨h1, ?_⟩
  simp only [statementBranch, h1, if_pos, hout]

/-- Witness for `c6_continuation_ops` on the line `x = a +`. -/
theorem c6_continuation_ops_witness :
    is_continuation (initSt [cs "x = a +", cs "    b"]) (cs "x = a +") = true :=
  (c6_continuation_ops (initSt [cs "x = a +", cs "    b"]) (cs "x = a +") (cs "x = a +")
    0 (cs "x = a +") (by decide) (by decide) (by decide) (by decide) (by decide)
    (by decide)).1

end Blcc


namespace Blcc

theorem extendOut_stacks : ∀ (ls : List Line) (s : St),
    (s.extendOut ls).indent_stack = s.indent_stack ∧
    (s.extendOut ls).block_type_stack = s.block_type_stack ∧
    (s.extendOut ls).whitespace_stack = s.whitespace_stack := by
  intro ls
  induction ls with
  | nil => intro s; exact ⟨rfl, rfl, rfl⟩
  | cons a t ih =>
    intro s
    have h := ih (s.appendOut a)
    simpa [St.extendOut, List.foldl_cons] using h

theorem flushBlanks_stacks (s : St) :
    (s.flushBlanks).indent_stack = s.indent_stack ∧
    (s.flushBlanks).block_type_stack = s.block_type_stack ∧
    (s.flushBlanks).whitespace_stack = s.whitespace_stack := by
  unfold St.flushBlanks
  simpa using extendOut_stacks s.pending_blank_lines s

theorem ows_stacks (s : St) (l : Line) (ic fc : Bool) :
    (output_with_semicolon s l ic fc).indent_stack = s.indent_stack ∧
    (output_with_semicolon s l ic fc).block_type_stack = s.block_type_stack ∧
    (output_with_semicolon s l ic fc).whitespace_stack = s.whitespace_stack := by
  unfold output_with_semicolon
  dsimp only
  repeat' split
  all_goals exact ⟨rfl, rfl, rfl⟩

theorem getLast?_tail_of_len {α : Type} (l : List α) (h : 1 < l.length) :
    l.tail.getLast? = l.getLast? := by
  match l with
  | [] => simp at h
  | [a] => simp at h
  | a :: b :: t => simp [List.getLast?_cons_cons]

theorem tail_ne_nil_of_len {α : Type} (l : List α) (h : 1 < l.length) :
    l.tail ≠ [] := by
  match l with
  | [] => simp at h
  | [a] => simp at h
  | a :: b :: t => simp

theorem getLast?_cons_of_ne {α : Type} (a : α) (l : List α) (h : l ≠ []) :
    (a :: l).getLast? = l.getLast? := by
  match l with
  | [] => exact absurd rfl h
  | b :: t => simp [List.getLast?_cons_cons]

theorem popEmitRest_stacks (s : St) (g : Bool) (cur : Line) (e : Bool)
    (hb : s.block_type_stack.length > 1) (hw : s.whitespace_stack.length > 1) :
    (popEmitRest s g cur e).indent_stack = s.indent_stack ∧
    (popEmitRest s g cur e).block_type_stack = s.block_type_stack.tail ∧
    (popEmitRest s g cur e).whitespace_stack = s.whitespace_stack.tail := by
  unfold popEmitRest
  simp only [hb, hw, if_pos, output_closing_brace]
  split
  · exact ⟨rfl, rfl, rfl⟩
  · exact ⟨rfl, rfl, rfl⟩

theorem inv_popEmitFrame (s : St) (g : Bool) (cur : Line) (e : Bool)
    (h : StackInv s) (hlen : 1 < s.indent_stack.length) :
    StackInv (popEmitFrame s g cur e) := by
  obtain ⟨e1, e2, hne, g1, g2, g3⟩ := h
  have hb : s.block_type_stack.length > 1 := by omega
  have hw : s.whitespace_stack.length > 1 := by omega
  obtain ⟨p1, p2, p3⟩ := popEmitRest_stacks s g cur e hb hw
  unfold popEmitFrame
  refine ⟨?_, ?_, ?_, ?_, ?_, ?_⟩ <;>
    simp only [p1, p2, p3, List.length_tail]
  · omega
  · omega
  · exact tail_ne_nil_of_len _ hlen
  · rw [getLast?_tail_of_len _ hlen]; exact g1
  · rw [getLast?_tail_of_len _ hb]; exact g2
  · rw [getLast?_tail_of_len _ hw]; exact g3

theorem inv_of_stacks_eq {s s' : St}
    (h1 : s'.indent_stack = s.indent_stack)
    (h2 : s'.block_type_stack = s.block_type_stack)
    (h3 : s'.whitespace_stack = s.whitespace_stack)
    (h : StackInv s) : StackInv s' := by
  obtain ⟨e1, e2, hne, g1, g2, g3⟩ := h
  exact ⟨by rw [h1, h2, e1], by rw [h1, h3, e2], by rw [h1]; exact hne,
    by rw [h1]; exact g1, by rw [h2]; exact g2, by rw [h3]; exact g3⟩

theorem inv_appendOut (s : St) (l : Line) (h : StackInv s) : StackInv (s.appendOut l) :=
  inv_of_stacks_eq rfl rfl rfl h

theorem inv_popOut (s : St) (h : StackInv s) : StackInv s.popOut :=
  inv_of_stacks_eq rfl rfl rfl h

theorem inv_setLastOut (s : St) (l : Line) (h : StackInv s) : StackInv (s.setLastOut l) :=
  inv_of_stacks_eq rfl rfl rfl h

theorem inv_extendOut (s : St) (ls : List Line) (h : StackInv s) : StackInv (s.extendOut ls) := by
  obtain ⟨p1, p2, p3⟩ := extendOut_stacks ls s
  exact inv_of_stacks_eq p1 p2 p3 h

theorem inv_flushBlanks (s : St) (h : StackInv s) : StackInv s.flushBlanks := by
  obtain ⟨p1, p2, p3⟩ := flushBlanks_stacks s
  exact inv_of_stacks_eq p1 p2 p3 h

theorem inv_ows (s : St) (l : Line) (ic fc : Bool) (h : StackInv s) :
    StackInv (output_with_semicolon s l ic fc) := by
  obtain ⟨p1, p2, p3⟩ := ows_stacks s l ic fc
  exact inv_of_stacks_eq p1 p2 p3 h

theorem inv_ocb (s : St) (bt : BlockType) (ws cur : Line) (h : StackInv s) :
    StackInv (output_closing_brace s bt ws cur) :=
  inv_of_stacks_eq rfl rfl rfl h

theorem inv_pushFrame (s : St) (i : Nat) (bt : BlockType) (ws : Line)
    (h : StackInv s) : StackInv (s.pushFrame i bt ws) := by
  obtain ⟨e1, e2, hne, g1, g2, g3⟩ := h
  have hb : s.block_type_stack ≠ [] := by
    intro hx
    rw [hx] at e1
    simp at e1
    exact hne e1
  have hw : s.whitespace_stack ≠ [] := by
    intro hx
    rw [hx] at e2
    simp at e2
    exact hne e2
  refine ⟨by simp [St.pushFrame, e1], by simp [St.pushFrame, e2], by simp [St.pushFrame], ?_, ?_, ?_⟩
  · rw [show (s.pushFrame i bt ws).indent_stack = i :: s.indent_stack from rfl,
      getLast?_cons_of_ne _ _ hne]
    exact g1
  · rw [show (s.pushFrame i bt ws).block_type_stack = bt :: s.block_type_stack from rfl,
      getLast?_cons_of_ne _ _ hb]
    exact g2
  · rw [show (s.pushFrame i bt ws).whitespace_stack = ws :: s.whitespace_stack from rfl,
      getLast?_cons_of_ne _ _ hw]
    exact g3

theorem inv_dedentLoopF (indent : Nat) (g : Bool) (cur : Line) :
    ∀ fuel (s : St), StackInv s → StackInv (dedentLoopF indent g cur fuel s) := by
  intro fuel
  induction fuel with
  | zero => intro s h; exact h
  | succ n ih =>
    intro s h
    rw [dedentLoopF]
    by_cases hc : s.indent_stack.length > 1 ∧ s.topIndent > indent
    · rw [if_pos hc]
      exact ih _ (inv_popEmitFrame _ _ _ _ h hc.1)
    · rw [if_neg hc]
      exact h

theorem inv_dedentLoop (indent : Nat) (g : Bool) (cur : Line) (s : St)
    (h : StackInv s) : StackInv (dedentLoop indent g cur s) :=
  inv_dedentLoopF indent g cur _ s h

theorem inv_accessPopLoopF (cur : Line) :
    ∀ fuel (s : St), StackInv s → StackInv (accessPopLoopF cur fuel s) := by
  intro fuel
  induction fuel with
  | zero => intro s h; exact h
  | succ n ih =>
    intro s h
    rw [accessPopLoopF]
    by_cases hc : s.indent_stack.length > 1
    · rw [if_pos hc]
      by_cases hc2 : s.block_type_stack.headD BlockType.NORMAL = BlockType.CLASS ∨
          s.block_type_stack.headD BlockType.NORMAL = BlockType.STRUCT
      · rw [if_pos hc2]; exact h
      · rw [if_neg hc2]
        exact ih _ (inv_popEmitFrame _ _ _ _ h hc)
    · rw [if_neg hc]
      exact h

theorem inv_accessPopLoop (cur : Line) (s : St) (h : StackInv s) :
    StackInv (accessPopLoop cur s) :=
  inv_accessPopLoopF cur _ s h

theorem inv_drainLoopF :
    ∀ fuel (s : St), StackInv s → StackInv (drainLoopF fuel s) := by
  intro fuel
  induction fuel with
  | zero => intro s h; exact h
  | succ n ih =>
    intro s h
    rw [drainLoopF]
    by_cases hc : s.indent_stack.length > 1
    · rw [if_pos hc]
      exact ih _ (inv_popEmitFrame _ _ _ _ h hc)
    · rw [if_neg hc]
      exact h

theorem inv_drainLoopMF :
    ∀ fuel (s : St), StackInv s → StackInv (drainLoopMF fuel s) := by
  intro fuel
  induction fuel with
  | zero => intro s h; exact h
  | succ n ih =>
    intro s h
    rw [drainLoopMF]
    by_cases hc : s.indent_stack.length > 1
    · rw [if_pos hc]
      exact ih _ (inv_popEmitFrame _ _ _ _ h hc)
    · rw [if_neg hc]
      exact h

end Blcc

namespace Blcc

theorem inv_blankDedentPart (s : St) (indent : Nat) (h : StackInv s) :
    StackInv (blankDedentPart s indent) := by
  unfold blankDedentPart
  dsimp only
  repeat' split
  all_goals first | exact h | exact inv_dedentLoop _ _ _ _ h

theorem inv_blankBuffer (s : St) (line : Line) (indent : Nat) (content : Line)
    (h : StackInv s) : StackInv (blankBuffer s line indent content) := by
  unfold blankBuffer
  dsimp only
  repeat' split
  all_goals
    first
      | exact inv_of_stacks_eq rfl rfl rfl h
      | exact inv_appendOut _ _ (inv_flushBlanks _ h)

theorem inv_blankCommentBranch (s : St) (line : Line) (indent : Nat) (content : Line)
    (h : StackInv s) : StackInv (blankCommentBranch s line indent content) :=
  inv_blankBuffer _ _ _ _ (inv_blankDedentPart _ _ h)

theorem inv_controlPush (s : St) (bt : BlockType) (si : Nat) (ws : Line)
    (h : StackInv s) : StackInv (controlPush s bt si ws) := by
  unfold controlPush
  dsimp only
  repeat' split
  all_goals first | exact h | exact inv_pushFrame _ _ _ _ h

theorem inv_controlCollect (s : St) (line content : Line)
    (h : StackInv s) : StackInv (controlCollect s line content) := by
  unfold controlCollect
  dsimp only
  repeat' split
  all_goals
    first
      | exact inv_of_stacks_eq rfl rfl rfl h
      | exact inv_of_stacks_eq rfl rfl rfl (inv_controlPush _ _ _ _
          (inv_setLastOut _ _ (inv_setLastOut _ _ (inv_extendOut _ _ (inv_appendOut _ _ h)))))
      | exact inv_of_stacks_eq rfl rfl rfl (inv_controlPush _ _ _ _
          (inv_setLastOut _ _ (inv_extendOut _ _ (inv_appendOut _ _ h))))

theorem inv_ctlBraceLine (s : St) (line : Line) (indent : Nat) (content : Line)
    (h : StackInv s) : StackInv (ctlBraceLine s line indent content) := by
  unfold ctlBraceLine
  dsimp only
  repeat' split
  all_goals
    first
      | exact inv_appendOut _ _ h
      | exact inv_pushFrame _ _ _ _ (inv_appendOut _ _ h)

theorem inv_contBody (s : St) (line : Line) (indent : Nat) (content : Line)
    (h : StackInv s) : StackInv (contBody s line indent content) := by
  unfold contBody
  dsimp only
  repeat' split
  all_goals
    first
      | exact inv_ows _ _ _ _ (inv_of_stacks_eq rfl rfl rfl h)
      | exact inv_of_stacks_eq rfl rfl rfl (inv_ows _ _ _ _ (inv_of_stacks_eq rfl rfl rfl h))

theorem inv_accessSpecBranch (s : St) (line content : Line)
    (h : StackInv s) : StackInv (accessSpecBranch s line content) := by
  unfold accessSpecBranch
  dsimp only
  exact inv_appendOut _ _ (inv_extendOut _ _
    (inv_accessPopLoop _ _ (inv_of_stacks_eq rfl rfl rfl h)))

theorem inv_statementBranch (s : St) (line : Line) (indent : Nat) (content : Line)
    (h : StackInv s) : StackInv (statementBranch s line indent content) := by
  unfold statementBranch
  dsimp only
  split
  · exact inv_of_stacks_eq rfl rfl rfl (inv_ows _ _ _ _ h)
  · exact inv_ows _ _ _ _ h

theorem inv_braceWhileBranch (s : St) (line stripped : Line)
    (h : StackInv s) : StackInv (braceWhileBranch s line stripped) := by
  unfold braceWhileBranch
  dsimp only
  exact inv_appendOut _ _ h

theorem inv_whileClauseBranch (s : St) (line content : Line)
    (h : StackInv s) : StackInv (whileClauseBranch s line content) := by
  unfold whileClauseBranch
  dsimp only
  split
  · exact inv_appendOut _ _ (inv_popOut _ h)
  · exact inv_appendOut _ _ h

theorem inv_regularBraceBranch (s : St) (line : Line) (indent : Nat) (content : Line)
    (h : StackInv s) : StackInv (regularBraceBranch s line indent content) := by
  unfold regularBraceBranch
  dsimp only
  repeat' split
  all_goals
    first
      | exact inv_appendOut _ _ h
      | exact inv_appendOut _ _ (inv_popOut _ h)
      | exact inv_pushFrame _ _ _ _ (inv_appendOut _ _ h)
      | exact inv_pushFrame _ _ _ _ (inv_appendOut _ _ (inv_popOut _ h))

theorem inv_closeBraceBranch (s : St) (line : Line) (indent : Nat)
    (h : StackInv s) : StackInv (closeBraceBranch s line indent) := by
  obtain ⟨e1, e2, hne, g1, g2, g3⟩ := h
  unfold closeBraceBranch
  dsimp only
  apply inv_appendOut
  split
  · rename_i hc
    have hlen : 1 < s.indent_stack.length := by
      rcases Bool.and_eq_true_iff.mp hc with ⟨h1, _⟩
      simpa using of_decide_eq_true h1
    have hb : 1 < s.block_type_stack.length := by omega
    have hw : 1 < s.whitespace_stack.length := by omega
    rw [if_pos hb]
    dsimp only
    rw [if_pos hw]
    refine ⟨?_, ?_, ?_, ?_, ?_, ?_⟩ <;> simp only [List.length_tail]
    · omega
    · omega
    · exact tail_ne_nil_of_len _ hlen
    · rw [getLast?_tail_of_len _ hlen]; exact g1
    · rw [getLast?_tail_of_len _ hb]; exact g2
    · rw [getLast?_tail_of_len _ hw]; exact g3
  · exact ⟨e1, e2, hne, g1, g2, g3⟩

end Blcc

namespace Blcc

theorem inv_elseCatchPush (s : St) (bt : BlockType) (indent : Nat) (lw : Line)
    (h : StackInv s) : StackInv (elseCatchPush s bt indent lw) := by
  unfold elseCatchPush
  dsimp only
  repeat' split
  all_goals first | exact h | exact inv_pushFrame _ _ _ _ h

theorem inv_colonRegularPush (s : St) (bt : BlockType) (indent : Nat)
    (lw : Line) (ec : Bool) (h : StackInv s) :
    StackInv (colonRegularPush s bt indent lw ec) := by
  unfold colonRegularPush
  dsimp only
  repeat' split
  all_goals first | exact h | exact inv_pushFrame _ _ _ _ h

theorem inv_colonBranch (s : St) (line : Line) (indent : Nat) (before after : Line)
    (ec : Bool) (h : StackInv s) : StackInv (colonBranch s line indent before after ec) := by
  unfold colonBranch
  dsimp only
  repeat' split
  all_goals
    first
      | exact inv_appendOut _ _ h
      | exact inv_of_stacks_eq rfl rfl rfl (inv_elseCatchPush _ _ _ _
          (inv_flushBlanks _ (inv_appendOut _ _ (inv_popOut _ h))))
      | exact inv_of_stacks_eq rfl rfl rfl (inv_elseCatchPush _ _ _ _
          (inv_appendOut _ _ (inv_flushBlanks _ h)))
      | exact inv_of_stacks_eq rfl rfl rfl (inv_colonRegularPush _ _ _ _ _
          (inv_appendOut _ _ (inv_flushBlanks _ h)))

theorem inv_stage5Core (s : St) (line : Line) (indent : Nat) (content : Line)
    (ec : Bool) (h : StackInv s) : StackInv (stage5Core s line indent content ec) := by
  unfold stage5Core
  repeat' split
  all_goals
    first
      | exact inv_regularBraceBranch _ _ _ _ h
      | exact inv_braceWhileBranch _ _ _ h
      | exact inv_closeBraceBranch _ _ _ h
      | exact inv_colonBranch _ _ _ _ _ _ h
      | exact inv_whileClauseBranch _ _ _ h
      | exact inv_statementBranch _ _ _ _ h

theorem inv_stage5 (s : St) (line : Line) (indent : Nat) (content : Line)
    (ec : Bool) (h : StackInv s) : StackInv (stage5 s line indent content ec) := by
  unfold stage5
  apply inv_stage5Core
  split
  · exact inv_flushBlanks _ h
  · exact h

theorem inv_afterCont (s : St) (line : Line) (indent : Nat) (content : Line)
    (st ec : Bool) (h : StackInv s) : StackInv (afterCont s line indent content st ec) := by
  unfold afterCont
  dsimp only
  split
  · rename_i s' heq
    repeat' split at heq
    all_goals
      first
        | exact Option.noConfusion heq
        | (simp only [Option.some.injEq] at heq; subst heq;
           exact inv_accessSpecBranch _ _ _ h)
  · split
    · exact inv_stage5 _ _ _ _ _ (inv_of_stacks_eq rfl rfl rfl
        (inv_dedentLoop _ _ _ _ (inv_of_stacks_eq rfl rfl rfl h)))
    · exact inv_stage5 _ _ _ _ _ h

theorem inv_processLine (s : St) (h : StackInv s) : StackInv (processLine s) := by
  unfold processLine
  dsimp only
  have h' : ∀ (x : St), x.indent_stack = s.indent_stack →
      x.block_type_stack = s.block_type_stack →
      x.whitespace_stack = s.whitespace_stack → StackInv x :=
    fun x a b c => inv_of_stacks_eq a b c h
  split
  · exact inv_appendOut _ _ (h' _ rfl rfl rfl)
  · split
    · exact inv_blankCommentBranch _ _ _ _ (h' _ rfl rfl rfl)
    · split
      · exact inv_controlCollect _ _ _ (h' _ rfl rfl rfl)
      · split
        · rename_i s' heq
          repeat' split at heq
          all_goals
            first
              | exact Option.noConfusion heq
              | (simp only [Option.some.injEq] at heq; subst heq;
                 first
                   | exact inv_ctlBraceLine _ _ _ _ (h' _ rfl rfl rfl)
                   | exact h' _ rfl rfl rfl)
        · repeat' split
          all_goals
            first
              | exact inv_afterCont _ _ _ _ _ _ (h' _ rfl rfl rfl)
              | exact inv_contBody _ _ _ _ (h' _ rfl rfl rfl)
              | exact inv_afterCont _ _ _ _ _ _ (inv_of_stacks_eq rfl rfl rfl (h' _ rfl rfl rfl))

theorem inv_stepOnce (s : St) (h : StackInv s) : StackInv (stepOnce s) := by
  unfold stepOnce
  dsimp only
  exact inv_of_stacks_eq rfl rfl rfl (inv_processLine s h)

theorem inv_stepsN : ∀ (k : Nat) (s : St), StackInv s → StackInv (stepsN k s) := by
  intro k
  induction k with
  | zero => intro s h; exact h
  | succ n ih => intro s h; exact ih _ (inv_stepOnce s h)

theorem inv_initSt (input : List Line) : StackInv (initSt input) := by
  refine ⟨rfl, rfl, ?_, rfl, rfl, rfl⟩
  simp [initSt]

theorem inv_finalSt (input : List Line) : StackInv (Compiler.finalSt input) := by
  unfold Compiler.finalSt
  dsimp only
  apply inv_extendOut
  unfold drainLoop
  apply inv_drainLoopF
  exact inv_of_stacks_eq rfl rfl rfl (inv_stepsN _ _ (inv_initSt input))

end Blcc

namespace Blcc

/-- C9: throughout translation the three stacks `indent_stack`,
`block_type_stack` and `whitespace_stack` have equal depth, never become
empty, and keep their base elements `0`, `NORMAL` and `""` at the bottom
(they are never popped); the initial state has exactly depth 1 with those
base elements, the invariant holds after every prefix of the line loop,
and it still holds at the end of `Compiler.compile` (after the drain). -/
theorem c9_stack_invariants (input : List Line) (k : Nat) :
    ((initSt input).indent_stack = [0] ∧
     (initSt input).block_type_stack = [BlockType.NORMAL] ∧
     (initSt input).whitespace_stack = [[]]) ∧
    StackInv (stepsN k (initSt input)) ∧
    StackInv (Compiler.finalSt input) :=
  ⟨⟨rfl, rfl, rfl⟩, inv_stepsN k _ (inv_initSt input), inv_finalSt input⟩

end Blcc

namespace Blcc

theorem appendOut_untracked (s : St) (l : Line) (htr : s.tracked = false) :
    s.appendOut l = { s with output := l :: s.output } := by
  simp [St.appendOut, htr]

theorem extendOut_untracked : ∀ (ls : List Line) (s : St), s.tracked = false →
    s.extendOut ls = { s with output := ls.reverse ++ s.output } := by
  intro ls
  induction ls with
  | nil => intro s htr; simp [St.extendOut]
  | cons a t ih =>
    intro s htr
    have h1 : s.extendOut (a :: t) = (s.appendOut a).extendOut t := by
      simp [St.extendOut, List.foldl_cons]
    rw [h1, ih _ (by simp [St.appendOut, htr]), appendOut_untracked s a htr]
    simp

theorem emittedBrace_eq (s s' : St) (bt : BlockType) (ws cur : Line)
    (hl : s'.lines = s.lines) (hc : s'.current = s.current) :
    emittedBrace s' bt ws cur = emittedBrace s bt ws cur := by
  simp only [emittedBrace, output_closing_brace, St.lastOut, St.appendOut,
    peek_next_line, hl, hc]

theorem accessBraces_congr (s s' : St) (cur : Line)
    (hl : s'.lines = s.lines) (hc : s'.current = s.current) :
    ∀ (bl : List BlockType) (wl : List Line),
      accessBraces s' cur bl wl = accessBraces s cur bl wl := by
  intro bl
  induction bl with
  | nil => intro wl; rfl
  | cons b bt ih =>
    intro wl
    cases wl with
    | nil => rfl
    | cons w wt =>
      simp only [accessBraces, ih, emittedBrace_eq s s' b w cur hl hc]

theorem findIdx_getD_of_any {α : Type} (d : α) (p : α → Bool) :
    ∀ (l : List α), l.any p = true → p (l.getD (l.findIdx p) d) = true := by
  intro l
  induction l with
  | nil => intro h; simp at h
  | cons a t ih =>
    intro h
    by_cases hp : p a
    · simp [List.findIdx_cons, hp]
    · have hp' : p a = false := by simpa using hp
      have ht : t.any p = true := by
        simp [List.any_cons, hp'] at h
        simpa [List.any_eq_true] using h
      rw [List.findIdx_cons]
      simp only [hp', cond_false]
      rw [List.getD_cons_succ]
      exact ih ht


theorem popEmitFrame_char (s : St) (cur : Line) (htr : s.tracked = false)
    (hb : s.block_type_stack.length > 1) (hw : s.whitespace_stack.length > 1) :
    popEmitFrame s true cur false =
      { s with
          indent_stack := s.indent_stack.tail,
          block_type_stack := s.block_type_stack.tail,
          whitespace_stack := s.whitespace_stack.tail,
          output :=
            if s.block_type_stack.headD BlockType.NORMAL = BlockType.REGULAR_BRACE then
              s.output
            else
              emittedBrace s (s.block_type_stack.headD BlockType.NORMAL)
                (s.whitespace_stack.headD []) cur :: s.output } := by
  unfold popEmitFrame popEmitRest
  by_cases hrb : s.block_type_stack.headD BlockType.NORMAL = BlockType.REGULAR_BRACE
  · have hrb2 : s.block_type_stack.head?.getD BlockType.NORMAL = BlockType.REGULAR_BRACE := by
      simpa using hrb
    simp [hb, hw, hrb2]
  · have hrb2 : ¬ s.block_type_stack.head?.getD BlockType.NORMAL = BlockType.REGULAR_BRACE := by
      simpa using hrb
    simp [hb, hw, hrb2, emittedBrace, output_closing_brace, St.appendOut, St.lastOut,
      peek_next_line, htr]


theorem accessPopLoopF_char : ∀ (fuel : Nat) (s : St) (cur : Line),
    s.tracked = false →
    s.indent_stack.length = s.block_type_stack.length →
    s.indent_stack.length = s.whitespace_stack.length →
    s.block_type_stack.any (fun bt => bt = BlockType.CLASS || bt = BlockType.STRUCT) = true →
    s.indent_stack.length ≤ fuel →
    accessPopLoopF cur fuel s =
      { s with
          indent_stack := s.indent_stack.drop
            (s.block_type_stack.findIdx fun bt =>
              bt = BlockType.CLASS || bt = BlockType.STRUCT),
          block_type_stack := s.block_type_stack.drop
            (s.block_type_stack.findIdx fun bt =>
              bt = BlockType.CLASS || bt = BlockType.STRUCT),
          whitespace_stack := s.whitespace_stack.drop
            (s.block_type_stack.findIdx fun bt =>
              bt = BlockType.CLASS || bt = BlockType.STRUCT),
          output := (accessBraces s cur
              (s.block_type_stack.take
                (s.block_type_stack.findIdx fun bt =>
                  bt = BlockType.CLASS || bt = BlockType.STRUCT))
              (s.whitespace_stack.take
                (s.block_type_stack.findIdx fun bt =>
                  bt = BlockType.CLASS || bt = BlockType.STRUCT))).reverse ++
            s.output } := by
  intro fuel
  induction fuel with
  | zero =>
    intro s cur htr e1 e2 hany hle
    exfalso
    have hb0 : s.block_type_stack = [] := by
      have h0 : s.block_type_stack.length = 0 := by omega
      exact List.length_eq_zero.mp h0
    rw [hb0] at hany
    simp at hany
  | succ n ih =>
    intro s cur htr e1 e2 hany hle
    have hbne : s.block_type_stack ≠ [] := by
      intro hx
      rw [hx] at hany
      simp at hany
    obtain ⟨bh, bt, hbk⟩ := List.exists_cons_of_ne_nil hbne
    by_cases hlen : s.indent_stack.length > 1
    · have hb : s.block_type_stack.length > 1 := by omega
      have hw : s.whitespace_stack.length > 1 := by omega
      have hwne : s.whitespace_stack ≠ [] := by
        intro hx
        rw [hx] at hw
        simp at hw
      obtain ⟨wh, wt, hwk⟩ := List.exists_cons_of_ne_nil hwne
      rw [accessPopLoopF]
      rw [if_pos hlen]
      by_cases hcs : s.block_type_stack.headD BlockType.NORMAL = BlockType.CLASS ∨
          s.block_type_stack.headD BlockType.NORMAL = BlockType.STRUCT
      · rw [if_pos hcs]
        have hph : (decide (bh = BlockType.CLASS) || decide (bh = BlockType.STRUCT)) = true := by
          rw [hbk] at hcs
          simp only [List.headD_cons] at hcs
          simpa using hcs
        have hfind : (s.block_type_stack.findIdx fun bt =>
            bt = BlockType.CLASS || bt = BlockType.STRUCT) = 0 := by
          rw [hbk]
          simp [List.findIdx_cons, hph]
        rw [hfind]
        simp [accessBraces]
      · rw [if_neg hcs]
        have hph : (decide (bh = BlockType.CLASS) || decide (bh = BlockType.STRUCT)) = false := by
          rw [hbk] at hcs
          simp only [List.headD_cons] at hcs
          push_neg at hcs
          simp [hcs.1, hcs.2]
        have hfind : (s.block_type_stack.findIdx fun bt =>
            bt = BlockType.CLASS || bt = BlockType.STRUCT) =
            (bt.findIdx fun b => b = BlockType.CLASS || b = BlockType.STRUCT) + 1 := by
          rw [hbk]
          simp [List.findIdx_cons, hph]
        have hchar := popEmitFrame_char s cur htr hb hw
        have htr2 : (popEmitFrame s true cur false).tracked = false := by
          rw [hchar]; exact htr
        have e12 : (popEmitFrame s true cur false).indent_stack.length =
            (popEmitFrame s true cur false).block_type_stack.length := by
          rw [hchar]
          simp only [List.length_tail]
          omega
        have e22 : (popEmitFrame s true cur false).indent_stack.length =
            (popEmitFrame s true cur false).whitespace_stack.length := by
          rw [hchar]
          simp only [List.length_tail]
          omega
        have hany2 : ((popEmitFrame s true cur false).block_type_stack.any fun bt =>
            bt = BlockType.CLASS || bt = BlockType.STRUCT) = true := by
          rw [hchar]
          show (s.block_type_stack.tail.any _) = true
          rw [hbk] at hany ⊢
          simp only [List.any_cons, hph, Bool.false_or] at hany
          simpa using hany
        have hle2 : (popEmitFrame s true cur false).indent_stack.length ≤ n := by
          rw [hchar]
          simp only [List.length_tail]
          omega
        rw [ih (popEmitFrame s true cur false) cur htr2 e12 e22 hany2 hle2]
        rw [hchar, hfind]
        dsimp only
        simp only [hbk, hwk, List.tail_cons, List.drop_succ_cons, List.take_succ_cons,
          List.headD_cons]
        rw [accessBraces_congr s _ cur rfl rfl]
        simp only [accessBraces]
        by_cases hrb : bh = BlockType.REGULAR_BRACE
        · simp [hrb] at hph
          simp [hrb]
          apply accessBraces_congr
          · rfl
          · rfl
        · simp only [if_neg hrb]
          simp [List.reverse_append]
          apply accessBraces_congr
          · rfl
          · rfl
    · rw [accessPopLoopF]
      rw [if_neg hlen]
      have hpos : 0 < s.block_type_stack.length := by rw [hbk]; simp
      have hbt : bt = [] := by
        have hl1 : s.block_type_stack.length = 1 := by omega
        rw [hbk] at hl1
        simpa using hl1
      have hph : (decide (bh = BlockType.CLASS) || decide (bh = BlockType.STRUCT)) = true := by
        rw [hbk, hbt] at hany
        simpa using hany
      have hfind : (s.block_type_stack.findIdx fun bt =>
          bt = BlockType.CLASS || bt = BlockType.STRUCT) = 0 := by
        rw [hbk]
        simp [List.findIdx_cons, hph]
      rw [hfind]
      simp [accessBraces]


theorem updBC_no_slash : ∀ (l : Line), (∀ a ∈ l, a ≠ '/') → ∀ b, updBC b l = b := by
  intro l
  induction l with
  | nil => intros; rfl
  | cons c rest ih =>
    intro h b
    cases rest with
    | nil => rfl
    | cons c2 rest2 =>
      rw [updBC]
      have hc : c ≠ '/' := h c (by simp)
      have hc2 : c2 ≠ '/' := h c2 (by simp)
      rw [if_neg (by simp [hc]), if_neg (by simp [hc2])]
      exact ih (fun a ha => h a (by simp [ha])) b

theorem accessSpecBranch_char (s : St) (line content : Line)
    (htr : s.tracked = false)
    (e1 : s.indent_stack.length = s.block_type_stack.length)
    (e2 : s.indent_stack.length = s.whitespace_stack.length)
    (hany : (s.block_type_stack.any fun bt =>
      bt = BlockType.CLASS || bt = BlockType.STRUCT) = true) :
    accessSpecBranch s line content =
      { s with
          pending_blank_lines := [],
          indent_stack := s.indent_stack.drop
            (s.block_type_stack.findIdx fun bt =>
              bt = BlockType.CLASS || bt = BlockType.STRUCT),
          block_type_stack := s.block_type_stack.drop
            (s.block_type_stack.findIdx fun bt =>
              bt = BlockType.CLASS || bt = BlockType.STRUCT),
          whitespace_stack := s.whitespace_stack.drop
            (s.block_type_stack.findIdx fun bt =>
              bt = BlockType.CLASS || bt = BlockType.STRUCT),
          output := line :: (s.pending_blank_lines.reverse ++
            ((accessBraces s content
                (s.block_type_stack.take
                  (s.block_type_stack.findIdx fun bt =>
                    bt = BlockType.CLASS || bt = BlockType.STRUCT))
                (s.whitespace_stack.take
                  (s.block_type_stack.findIdx fun bt =>
                    bt = BlockType.CLASS || bt = BlockType.STRUCT))).reverse ++
              s.output)) } := by
  unfold accessSpecBranch accessPopLoop
  rw [accessPopLoopF_char _ { s with pending_blank_lines := [] } content htr e1 e2 hany
    (le_refl _)]
  dsimp only
  rw [extendOut_untracked _ _ (by exact htr)]
  rw [appendOut_untracked _ _ (by exact htr)]
  dsimp only
  rw [accessBraces_congr s { s with pending_blank_lines := [] } content rfl rfl]


theorem getD_eq_headD_drop {α : Type} (d : α) :
    ∀ (l : List α) (n : Nat), l.getD n d = (l.drop n).headD d := by
  intro l
  induction l with
  | nil => intro n; cases n <;> rfl
  | cons a t ih =>
    intro n
    cases n with
    | zero => rfl
    | succ m => simp only [List.drop_succ_cons]; simpa using ih m

theorem processLine_access (s : St) (line content bspec aspec : Line)
    (hline : s.lines.getD s.current [] = line)
    (hcontent : get_content line = content)
    (hbc : s.in_block_comment = false)
    (hnos : ∀ a ∈ line, a ≠ '/')
    (hck : s.control_keyword = none)
    (hci : s.continuation_indent = none)
    (hne : (content.isEmpty || (cs "//").isPrefixOf (pyLstrip content)) = false)
    (hdet : detectKw (pyStrip content) = none)
    (hind : get_indent line < s.topIndent)
    (hftc : find_trailing_colon content = some (bspec, aspec))
    (hpb : (pyStrip bspec = cs "public" || pyStrip bspec = cs "private" ||
            pyStrip bspec = cs "protected" : Bool) = true)
    (hany : (s.block_type_stack.any fun bt =>
      bt = BlockType.CLASS || bt = BlockType.STRUCT) = true) :
    processLine s = accessSpecBranch s line content := by
  have hupd : updBC false line = false := updBC_no_slash line hnos false
  simp only [processLine]
  rw [hline, hbc, hupd]
  have hS : { s with in_block_comment := false } = s := by
    conv_lhs => rw [← hbc]
  rw [hS]
  simp only [Bool.or_self, Bool.false_eq_true, if_false]
  rw [hcontent, hne, hck]
  simp only [Bool.false_eq_true, if_false, Option.isSome_none]
  rw [hdet]
  simp only
  rw [hci]
  simp only [afterCont]
  have hd : decide (get_indent line < s.topIndent) = true := decide_eq_true hind
  rw [hbc]
  simp only [Bool.not_false, Bool.true_and]
  rw [hd, hftc]
  simp only [if_true]
  rw [hpb, hany]
  simp only [Bool.true_and, if_true]


/-- C5: whenever the current line's content is `public:`, `private:`, or
`protected:`, at a lower indent than the top of the indent stack, inside an
open class or struct (a `CLASS`/`STRUCT` frame somewhere on the stack), and
no block-comment, control-statement, or continuation state is pending,
`_process_line` pops exactly the frames strictly above the innermost
`CLASS`/`STRUCT` frame, emitting their closing braces (and none for popped
`REGULAR_BRACE` frames), then emits the access-specifier line verbatim with
its colon kept; the enclosing `CLASS`/`STRUCT` frame itself is not popped
and receives no closing brace: it remains on the stack as the new top. -/
theorem c5_access_specifier (s : St) (line spec : Line)
    (hspec : spec = cs "public:" ∨ spec = cs "private:" ∨ spec = cs "protected:")
    (hline : s.lines.getD s.current [] = line)
    (hcontent : get_content line = spec)
    (hbc : s.in_block_comment = false)
    (hck : s.control_keyword = none)
    (hci : s.continuation_indent = none)
    (htr : s.tracked = false)
    (hind : get_indent line < s.topIndent)
    (e1 : s.indent_stack.length = s.block_type_stack.length)
    (e2 : s.indent_stack.length = s.whitespace_stack.length)
    (hany : (s.block_type_stack.any fun bt =>
      bt = BlockType.CLASS || bt = BlockType.STRUCT) = true) :
    processLine s =
      { s with
          pending_blank_lines := [],
          indent_stack := s.indent_stack.drop
            (s.block_type_stack.findIdx fun bt =>
              bt = BlockType.CLASS || bt = BlockType.STRUCT),
          block_type_stack := s.block_type_stack.drop
            (s.block_type_stack.findIdx fun bt =>
              bt = BlockType.CLASS || bt = BlockType.STRUCT),
          whitespace_stack := s.whitespace_stack.drop
            (s.block_type_stack.findIdx fun bt =>
              bt = BlockType.CLASS || bt = BlockType.STRUCT),
          output := line :: (s.pending_blank_lines.reverse ++
            ((accessBraces s spec
                (s.block_type_stack.take
                  (s.block_type_stack.findIdx fun bt =>
                    bt = BlockType.CLASS || bt = BlockType.STRUCT))
                (s.whitespace_stack.take
                  (s.block_type_stack.findIdx fun bt =>
                    bt = BlockType.CLASS || bt = BlockType.STRUCT))).reverse ++
              s.output)) } ∧
    ((s.block_type_stack.drop
        (s.block_type_stack.findIdx fun bt =>
          bt = BlockType.CLASS || bt = BlockType.STRUCT)).headD BlockType.NORMAL
        = BlockType.CLASS ∨
     (s.block_type_stack.drop
        (s.block_type_stack.findIdx fun bt =>
          bt = BlockType.CLASS || bt = BlockType.STRUCT)).headD BlockType.NORMAL
        = BlockType.STRUCT) := by
  have hgc : get_content line = line.dropWhile isSpTab :=
    lstripBy_eq_dropWhile isSpTab line
  have hdec : line.takeWhile isSpTab ++ spec = line := by
    rw [← hcontent, hgc]
    exact List.takeWhile_append_dropWhile isSpTab line
  have hnos : ∀ a ∈ line, a ≠ '/' := by
    intro a ha heq
    subst heq
    rw [← hdec] at ha
    rcases List.mem_append.1 ha with h1 | h2
    · exact absurd (List.mem_takeWhile_imp h1) (by decide)
    · rcases hspec with h | h | h <;> rw [h] at h2 <;> exact absurd h2 (by decide)
  have hne : (spec.isEmpty || (cs "//").isPrefixOf (pyLstrip spec)) = false := by
    rcases hspec with h | h | h <;> rw [h] <;> decide
  have hdet : detectKw (pyStrip spec) = none := by
    rcases hspec with h | h | h <;> rw [h] <;> decide
  obtain ⟨bspec, hftc, hpb⟩ :
      ∃ b, find_trailing_colon spec = some (b, []) ∧
        (pyStrip b = cs "public" || pyStrip b = cs "private" ||
         pyStrip b = cs "protected" : Bool) = true := by
    rcases hspec with h | h | h <;> rw [h]
    · exact ⟨cs "public", by decide, by decide⟩
    · exact ⟨cs "private", by decide, by decide⟩
    · exact ⟨cs "protected", by decide, by decide⟩
  constructor
  · rw [processLine_access s line spec bspec [] hline hcontent hbc hnos hck hci
      hne hdet hind hftc hpb hany]
    exact accessSpecBranch_char s line spec htr e1 e2 hany
  · have h := findIdx_getD_of_any BlockType.NORMAL
      (fun bt => bt = BlockType.CLASS || bt = BlockType.STRUCT) s.block_type_stack hany
    rw [getD_eq_headD_drop] at h
    simpa using h


theorem c5_access_specifier_witness :
    processLine c5ExSt =
      { c5ExSt with
          pending_blank_lines := [],
          indent_stack := [4, 0],
          block_type_stack := [BlockType.CLASS, BlockType.NORMAL],
          whitespace_stack := [[], []],
          output := cs "public:" :: cs "    \x7d" :: c5ExSt.output } :=
  (c5_access_specifier c5ExSt (cs "public:") (cs "public:") (Or.inl rfl) rfl rfl
    rfl rfl rfl rfl (by decide) rfl rfl (by decide)).1.trans (by rfl)

end Blcc

namespace Blcc

theorem resolve_mem (fs : FileSys) (name : String) :
    ∀ (dirs : List String) (p : String),
      resolve_include fs name dirs = some p → p ∈ fs.map Prod.fst := by
  intro dirs
  induction dirs with
  | nil => intro p h; exact Option.noConfusion h
  | cons d rest ih =>
    intro p h
    rw [resolve_include] at h
    by_cases he : fileExists fs (joinPath d name) = true
    · rw [if_pos he] at h
      simp only [Option.some.injEq] at h
      subst h
      unfold fileExists lookupFile at he
      rw [Option.isSome_map'] at he
      obtain ⟨e, hfind⟩ := Option.isSome_iff_exists.1 he
      have hmem := List.mem_of_find?_eq_some hfind
      have hpred := List.find?_some hfind
      simp only [decide_eq_true_eq] at hpred
      exact hpred ▸ List.mem_map_of_mem Prod.fst hmem
    · rw [if_neg he] at h
      exact ih p h

theorem foldl_pres {α β : Type} (P : β → Prop) (f : β → α → β)
    (hstep : ∀ b a, P b → P (f b a)) :
    ∀ (l : List α) (b : β), P b → P (l.foldl f b) := by
  intro l
  induction l with
  | nil => intro b hb; exact hb
  | cons a t ih => intro b hb; exact ih (f b a) (hstep b a hb)

theorem nodup_length_le {l keys : List String} (hnd : l.Nodup)
    (hsub : ∀ p ∈ l, p ∈ keys) : l.length ≤ keys.length := by
  calc l.length = l.toFinset.card := (List.toFinset_card_of_nodup hnd).symm
    _ ≤ keys.toFinset.card := by
        apply Finset.card_le_card
        intro x hx
        rw [List.mem_toFinset] at hx ⊢
        exact hsub x hx
    _ ≤ keys.length := keys.toFinset_card_le


theorem expandFile_inv (fs : FileSys) (inc_dirs : List String) :
    ∀ (fuel : Nat) (sp : String) (inc : List String),
      inc.Nodup → (∀ p ∈ inc, p ∈ fs.map Prod.fst) →
      fs.length + 1 ≤ fuel + inc.length →
      expandFile fs inc_dirs fuel sp inc ≠ .error .fuelOut ∧
      ∀ outs inc', expandFile fs inc_dirs fuel sp inc = .ok (outs, inc') →
        inc'.Nodup ∧ (∀ p ∈ inc', p ∈ fs.map Prod.fst) ∧ inc <:+ inc' := by
  intro fuel
  induction fuel with
  | zero =>
    intro sp inc hnd hsub hle
    exfalso
    have h1 : inc.length ≤ (fs.map Prod.fst).length := nodup_length_le hnd hsub
    rw [List.length_map] at h1
    omega
  | succ fuel ih =>
    intro sp inc hnd hsub hle
    have hstep : ∀ acc ln,
        (acc ≠ Except.error ExpErr.fuelOut ∧
         ∀ outs inc', acc = Except.ok (outs, inc') →
           inc'.Nodup ∧ (∀ p ∈ inc', p ∈ fs.map Prod.fst) ∧ inc <:+ inc') →
        ((expandStep fs (dirnameOf sp :: inc_dirs) sp
            (fun p i => expandFile fs inc_dirs fuel p i) acc ln) ≠
              Except.error ExpErr.fuelOut ∧
         ∀ outs inc', (expandStep fs (dirnameOf sp :: inc_dirs) sp
            (fun p i => expandFile fs inc_dirs fuel p i) acc ln) =
              Except.ok (outs, inc') →
           inc'.Nodup ∧ (∀ p ∈ inc', p ∈ fs.map Prod.fst) ∧ inc <:+ inc') := by
      intro acc ln hacc
      cases acc with
      | error e =>
        simpa only [expandStep] using hacc
      | ok pr =>
        obtain ⟨outs, inci⟩ := pr
        obtain ⟨-, hok⟩ := hacc
        obtain ⟨hndi, hsubi, hsufi⟩ := hok outs inci rfl
        simp only [expandStep]
        cases hm : matchInclude ln.2.toList with
        | none =>
          try simp only [hm]
          refine ⟨by simp, ?_⟩
          intro o i h
          simp only [Bool.false_eq_true, if_false, Except.ok.injEq, Prod.mk.injEq] at h
          obtain ⟨h1, h2⟩ := h
          subst h2
          exact ⟨hndi, hsubi, hsufi⟩
        | some name =>
          try simp only [hm]
          cases hres : resolve_include fs name (dirnameOf sp :: inc_dirs) with
          | none =>
            try simp only [hres]
            refine ⟨by simp, ?_⟩
            intro o i h
            simp only [Bool.false_eq_true, if_false, Except.ok.injEq, Prod.mk.injEq] at h
            obtain ⟨h1, h2⟩ := h
            subst h2
            exact ⟨hndi, hsubi, hsufi⟩
          | some p =>
            try simp only [hres]
            cases hc : inci.contains p with
            | true =>
              try simp only [hc, if_true]
              refine ⟨by simp, ?_⟩
              intro o i h
              simp only [Bool.false_eq_true, if_false, Except.ok.injEq, Prod.mk.injEq] at h
              obtain ⟨h1, h2⟩ := h
              subst h2
              exact ⟨hndi, hsubi, hsufi⟩
            | false =>
              try simp only [hc, if_false]
              have hpmem : p ∈ fs.map Prod.fst := resolve_mem fs name _ p hres
              have hnotmem : p ∉ inci := by simpa using hc
              have hnd2 : (p :: inci).Nodup := List.nodup_cons.2 ⟨hnotmem, hndi⟩
              have hsub2 : ∀ q ∈ p :: inci, q ∈ fs.map Prod.fst := by
                intro q hq
                rcases List.mem_cons.1 hq with h | h
                · exact h ▸ hpmem
                · exact hsubi q h
              have hle2 : fs.length + 1 ≤ fuel + (p :: inci).length := by
                have hl := hsufi.length_le
                simp only [List.length_cons]
                omega
              obtain ⟨hne2, hok2⟩ := ih p (p :: inci) hnd2 hsub2 hle2
              cases hrec : expandFile fs inc_dirs fuel p (p :: inci) with
              | error e =>
                try simp only [hrec]
                refine ⟨?_, ?_⟩
                · intro h
                  injection h with h
                  exact hne2 (by rw [hrec, h])
                · intro o i h
                  exact Except.noConfusion h
              | ok pr2 =>
                obtain ⟨sub, inc2⟩ := pr2
                obtain ⟨hnd3, hsub3, hsuf3⟩ := hok2 sub inc2 hrec
                try simp only [hrec]
                refine ⟨by simp, ?_⟩
                intro o i h
                simp only [Bool.false_eq_true, if_false, Except.ok.injEq, Prod.mk.injEq] at h
                obtain ⟨h1, h2⟩ := h
                subst h2
                exact ⟨hnd3, hsub3,
                  hsufi.trans ((List.suffix_cons p inci).trans hsuf3)⟩
    simp only [expandFile]
    cases hlook : lookupFile fs sp with
    | none =>
      try simp only [hlook]
      refine ⟨?_, ?_⟩
      · intro h
        injection h with h
        exact ExpErr.noConfusion h
      · intro outs inc' h
        exact Except.noConfusion h
    | some src_lines =>
      try simp only [hlook]
      try dsimp only
      have key := foldl_pres
        (fun acc => acc ≠ Except.error ExpErr.fuelOut ∧
          ∀ outs inc', acc = Except.ok (outs, inc') →
            inc'.Nodup ∧ (∀ p ∈ inc', p ∈ fs.map Prod.fst) ∧ inc <:+ inc')
        (expandStep fs (dirnameOf sp :: inc_dirs) sp
          (fun p i => expandFile fs inc_dirs fuel p i))
        hstep (src_lines.enumFrom 1) (Except.ok ([], inc))
        ⟨by simp, by
          intro outs inc' h
          simp only [Bool.false_eq_true, if_false, Except.ok.injEq, Prod.mk.injEq] at h
          obtain ⟨h1, h2⟩ := h
          subst h2
          exact ⟨hnd, hsub, List.suffix_refl inc⟩⟩
      exact key


/-- C8: the pragma-once guard of `expand_blh_includes`. (1) An include line
whose header resolves to an already-included path is skipped entirely: the
fold accumulator is returned unchanged, so the line contributes no output
lines and raises no error. (2) The expansion never exhausts its recursion
budget (`fs.length + 1` suffices for every filesystem), because every
recursive call inserts a fresh existing path into the included set — the
guard therefore terminates include cycles. (3) The final included set is
duplicate-free: each resolved header path is recorded, and hence spliced,
at most once. (4) Concretely, on a filesystem where `a.blh` and `b.blh`
include each other and `main.blc` includes `a.blh` twice, the expansion
succeeds, each header body appears exactly once, and the second include
contributes nothing. -/
theorem c8_include_once :
    (∀ (fs : FileSys) (dirs : List String) (sp : String)
        (recur : String → List String → Except ExpErr (List OutLine × List String))
        (outs : List OutLine) (included : List String) (n : Nat)
        (line name p : String),
        matchInclude line.toList = some name →
        resolve_include fs name dirs = some p →
        included.contains p = true →
        expandStep fs dirs sp recur (.ok (outs, included)) (n, line) =
          .ok (outs, included)) ∧
    (∀ (fs : FileSys) (dirs : List String) (sp : String),
        expand_blh_includes fs dirs sp ≠ .error .fuelOut) ∧
    (∀ (fs : FileSys) (dirs : List String) (sp : String)
        (outs : List OutLine) (inc' : List String),
        expand_blh_includes fs dirs sp = .ok (outs, inc') → inc'.Nodup) ∧
    (expand_blh_includes fsCyc [] "/src/main.blc" =
      .ok ([("int a;", "/src/a.blh", 1), ("int b;", "/src/b.blh", 1),
            ("int x;", "/src/main.blc", 2)],
           ["/src/b.blh", "/src/a.blh"])) := by
  refine ⟨?_, ?_, ?_, ?_⟩
  · intro fs dirs sp recur outs included n line name p hm hres hc
    simp only [expandStep, hm, hres, hc, if_true]
  · intro fs dirs sp
    exact (expandFile_inv fs dirs (fs.length + 1) sp [] List.nodup_nil
      (by simp) (by simp)).1
  · intro fs dirs sp outs inc' h
    exact ((expandFile_inv fs dirs (fs.length + 1) sp [] List.nodup_nil
      (by simp) (by simp)).2 outs inc' h).1
  · rfl

theorem c8_include_once_witness :
    expandStep fsCyc ["/src"] "/src/main.blc"
        (fun _ _ => Except.error ExpErr.fuelOut)
        (Except.ok ([], ["/src/a.blh"])) (3, "#include \"a.blh\"") =
      Except.ok ([], ["/src/a.blh"]) :=
  c8_include_once.1 fsCyc ["/src"] "/src/main.blc"
    (fun _ _ => Except.error ExpErr.fuelOut) [] ["/src/a.blh"] 3
    "#include \"a.blh\"" "a.blh" "/src/a.blh" (by decide) (by decide) (by decide)

end Blcc
